import Mathlib

/-!
Verification development for the stac-auth-proxy request/response pipeline.

The Python source is shallowly embedded: Python dicts become association
lists in insertion order, JSON values become the `Json` inductive, and the
relevant functions (`find_match`, `validate_token`, `_deep_merge`, the CQL2
filter helpers, the streaming JSON response mutator and the link rewriter)
become executable Lean functions translated clause by clause from the code
in `src/stac_auth_proxy/`.
-/

namespace StacAuthProxy

/-- JSON values, the data manipulated by the proxy's middleware. -/
inductive Json where
  | null
  | bool (b : Bool)
  | num (n : Int)
  | str (s : String)
  | arr (elems : List Json)
  | obj (entries : List (String × Json))

/-- A Python dict holding JSON values, in insertion order (keys unique in
practice; all operations below follow CPython dict semantics on the first
occurrence of a key). -/
abbrev JDict := List (String × Json)

/-- Python `d.get(k)` / `d[k]`: value at the first occurrence of key `k`. -/
def getd (d : JDict) (k : String) : Option Json :=
  match d.find? (fun kv => kv.1 == k) with
  | some kv => some kv.2
  | none => none

/-- Python `k in d`. -/
def hasKey (d : JDict) (k : String) : Bool :=
  d.any (fun kv => kv.1 == k)

/-- Python `d[k] = v`: update the key in place if present, else append. -/
def setd (d : JDict) (k : String) (v : Json) : JDict :=
  if hasKey d k then d.map (fun kv => if kv.1 == k then (k, v) else kv)
  else d ++ [(k, v)]

/-- Python truthiness of a JSON value. -/
def Json.truthy : Json → Bool
  | .null => false
  | .bool b => b
  | .num n => n != 0
  | .str s => s ≠ ""
  | .arr xs => !xs.isEmpty
  | .obj kvs => !kvs.isEmpty

/-- Model of `str.lower()` / `str.casefold()` (ASCII-faithful; HTTP methods
and header schemes compared by the proxy are ASCII). -/
def caseFold (s : String) : String :=
  String.mk (s.data.map Char.toLower)

def splitCharsAux (sep : Char) : List Char → List Char → List (List Char)
  | [], acc => [acc.reverse]
  | c :: cs, acc =>
      if c == sep then acc.reverse :: splitCharsAux sep cs []
      else splitCharsAux sep cs (c :: acc)

/-- Python `s.split(sep)` for a one-character separator (every separator
occurrence splits; no collapsing; `"".split(sep) == [""]`). -/
def pySplit (sep : Char) (s : String) : List String :=
  (splitCharsAux sep s.data []).map String.mk

/-! ## Regular-expression fragment

The endpoint maps of the proxy use Python regexes built from literal
characters, the one-or-more-non-slash class `([^/]+)` / `[^/]+`, a leading
`^` (redundant under `re.match`, which anchors at the start) and an optional
trailing `$`.  The fragment is modelled exactly: `reMatch` is `re.match`
(anchored at the start only) and `reFullMatch` forces a whole-string match. -/

inductive RegexAtom where
  | lit (c : Char)
  | notSlashPlus
deriving DecidableEq, Repr

structure PathPattern where
  atoms : List RegexAtom
  anchorEnd : Bool
deriving DecidableEq, Repr

/-- Backtracking matcher for the fragment: does some way of consuming the
atoms match a leading segment of the input (the whole input when
`anchorEnd`)?  The `fuel` argument only makes the recursion structural;
every step consumes an atom or a character, so `atoms.length + input.length
+ 1` fuel (supplied by `matchAtoms`) can never run out. -/
def matchAtomsFuel : Nat → List RegexAtom → List Char → Bool → Bool
  | 0, _, _, _ => false
  | _ + 1, [], rest, anchorEnd => !anchorEnd || rest.isEmpty
  | _ + 1, RegexAtom.lit _ :: _, [], _ => false
  | fuel + 1, RegexAtom.lit c :: as, r :: rest, anchorEnd =>
      c == r && matchAtomsFuel fuel as rest anchorEnd
  | _ + 1, RegexAtom.notSlashPlus :: _, [], _ => false
  | fuel + 1, RegexAtom.notSlashPlus :: as, r :: rest, anchorEnd =>
      r != '/' &&
        (matchAtomsFuel fuel as rest anchorEnd ||
         matchAtomsFuel fuel (RegexAtom.notSlashPlus :: as) rest anchorEnd)

def matchAtoms (atoms : List RegexAtom) (input : List Char) (anchorEnd : Bool) : Bool :=
  matchAtomsFuel (atoms.length + input.length + 1) atoms input anchorEnd

/-- Python `re.match(pattern, path)`: match anchored at the start of the
string (the end only when the pattern carries `$`). -/
def reMatch (p : PathPattern) (path : String) : Bool :=
  matchAtoms p.atoms path.data p.anchorEnd

/-- A whole-string match of the same pattern (`re.fullmatch`). -/
def reFullMatch (p : PathPattern) (path : String) : Bool :=
  matchAtoms p.atoms path.data true

/-- Convenience: a pattern made of the literal characters of `s`. -/
def litPattern (s : String) (anchorEnd : Bool) : PathPattern :=
  ⟨s.data.map RegexAtom.lit, anchorEnd⟩

/-! ## Endpoint classifier (`utils/requests.py`, `find_match`) -/

/-- One entry of an endpoint method list: either a bare method name or a
`(method, scopes)` tuple. -/
inductive EndpointMethod where
  | plain (name : String)
  | withScopes (name : String) (scopes : List String)
deriving DecidableEq, Repr

def EndpointMethod.name : EndpointMethod → String
  | .plain n => n
  | .withScopes n _ => n

def EndpointMethod.scopes : EndpointMethod → List String
  | .plain _ => []
  | .withScopes _ s => s

/-- An endpoint map: regex pattern paired with its method list, in
declaration order. -/
abbrev EndpointMethods := List (PathPattern × List EndpointMethod)

structure MatchResult where
  is_private : Bool
  required_scopes : List String
deriving DecidableEq, Repr

/-- Inner loop of `find_match`: scan the method list; on a case-insensitive
method match return that entry's scope list (empty for a bare name). -/
def methodScan (method : String) : List EndpointMethod → Option (List String)
  | [] => none
  | EndpointMethod.plain n :: rest =>
      if caseFold method == caseFold n then some [] else methodScan method rest
  | EndpointMethod.withScopes n s :: rest =>
      if caseFold method == caseFold n then some s else methodScan method rest

/-- Outer loop of `find_match`: scan patterns in declaration order; skip
entries whose pattern does not `re.match` the path or whose method list does
not contain the request method. -/
def findMatchScan (path method : String) (default_public : Bool) :
    EndpointMethods → MatchResult
  | [] => ⟨!default_public, []⟩
  | (pattern, endpoint_methods) :: rest =>
      if reMatch pattern path then
        match methodScan method endpoint_methods with
        | some required_scopes => ⟨default_public, required_scopes⟩
        | none => findMatchScan path method default_public rest
      else findMatchScan path method default_public rest

/-- `find_match` from `utils/requests.py`: consult the private map when
`default_public`, the public map otherwise. -/
def find_match (path method : String)
    (private_endpoints public_endpoints : EndpointMethods)
    (default_public : Bool) : MatchResult :=
  findMatchScan path method default_public
    (if default_public then private_endpoints else public_endpoints)

/-- Does the given entry match the request, under a given notion of regex
match: the pattern matches the path and the method list contains the request
method case-insensitively? -/
def entryMatchesWith (matchFn : PathPattern → String → Bool)
    (path method : String) (e : PathPattern × List EndpointMethod) : Bool :=
  matchFn e.1 path && e.2.any (fun em => caseFold method == caseFold em.name)

/-- Scope list of the first method entry matching the request method. -/
def firstScopes (method : String) (ems : List EndpointMethod) : List String :=
  match ems.find? (fun em => caseFold method == caseFold em.name) with
  | some em => em.scopes
  | none => []

/-- Claim C1's words, verbatim: first entry of the consulted map whose regex
FULLY matches the path and whose method list contains the method
case-insensitively; scopes only when the consulted map is the private one;
`is_private = not default_public` with no scopes otherwise. -/
def findMatchClaimC1 (path method : String)
    (private_endpoints public_endpoints : EndpointMethods)
    (default_public : Bool) : MatchResult :=
  let consulted := if default_public then private_endpoints else public_endpoints
  match consulted.find? (entryMatchesWith reFullMatch path method) with
  | some e =>
      ⟨default_public, if default_public then firstScopes method e.2 else []⟩
  | none => ⟨!default_public, []⟩

/-- Amended claim C1: the regex only has to match at the start of the path
(Python `re.match`), and the matched method entry's scope list is returned
whichever map was consulted. -/
def findMatchAmendedC1 (path method : String)
    (private_endpoints public_endpoints : EndpointMethods)
    (default_public : Bool) : MatchResult :=
  let consulted := if default_public then private_endpoints else public_endpoints
  match consulted.find? (entryMatchesWith reMatch path method) with
  | some e => ⟨default_public, firstScopes method e.2⟩
  | none => ⟨!default_public, []⟩

/-- Does some entry of the map match the request (pattern `re.match` plus
method membership)?  This is the notion of "the map matches (path, method)"
used by the classifier-dualism claim. -/
def mapMatches (m : EndpointMethods) (path method : String) : Bool :=
  m.any (entryMatchesWith reMatch path method)

/-! ## Auth enforcement (`middleware/EnforceAuthMiddleware.py`) -/

/-- A decoded JWT payload: claim name to claim value.  Only string-valued
claims matter to `validate_token`, which reads the space-separated `scope`
claim. -/
abbrev Payload := List (String × String)

/-- Python `payload["scope"]` lookup, as an `Option` so the caller can
model the `KeyError` on a missing key. -/
def lookupClaim (p : Payload) (k : String) : Option String :=
  match p.find? (fun kv => kv.1 == k) with
  | some kv => some kv.2
  | none => none

/-- Result of `validate_token`: a returned payload (`None` for anonymous
public requests), a raised `HTTPException` (status, detail, optional
`WWW-Authenticate` header value), or an uncaught Python `KeyError`. -/
inductive TokenResult where
  | ok (payload : Option Payload)
  | httpError (status : Nat) (detail : String) (wwwAuthenticate : Option String)
  | pyKeyError (key : String)
deriving DecidableEq, Repr

/-- The required-scopes loop at the end of `validate_token`: for each
required scope in order, look up `payload["scope"]` (a `KeyError` when the
claim is absent) and fail with 401 naming the scope when it is not among
the token's space-separated scopes. -/
def scopeLoop (payload : Payload) : List String → TokenResult
  | [] => TokenResult.ok (some payload)
  | scope :: rest =>
      match lookupClaim payload "scope" with
      | none => TokenResult.pyKeyError "scope"
      | some claim =>
          if (pySplit ' ' claim).contains scope then scopeLoop payload rest
          else TokenResult.httpError 401 "Not enough permissions"
                 (some ("Bearer scope=\"" ++ scope ++ "\""))

/-- `validate_token`.  The JWKS fetch and `jwt.decode` call are modelled by
the `decode` parameter: `some payload` when the token validates, `none` for
any `InvalidTokenError` / `DecodeError` (the code catches both together).
Python's `if not auth_header` treats `None` and the empty string alike. -/
def validate_token (decode : String → Option Payload)
    (auth_header : Option String) (auto_error : Bool)
    (required_scopes : List String) : TokenResult :=
  match auth_header with
  | none =>
      if auto_error then TokenResult.httpError 403 "Not authenticated" none
      else TokenResult.ok none
  | some header =>
      if header = "" then
        if auto_error then TokenResult.httpError 403 "Not authenticated" none
        else TokenResult.ok none
      else
        match pySplit ' ' header with
        | [scheme, token] =>
            if caseFold scheme != "bearer" then
              TokenResult.httpError 401 "Could not validate credentials"
                (some "Bearer")
            else
              match decode token with
              | none =>
                  TokenResult.httpError 401 "Could not validate credentials"
                    (some "Bearer")
              | some payload => scopeLoop payload required_scopes
        | _ =>
            TokenResult.httpError 401 "Could not validate credentials"
              (some "Bearer")

/-- `EnforceAuthMiddleware.__call__` renders a raised `HTTPException` as
`JSONResponse` with body `{"detail": e.detail}` and the exception's status
code. -/
def renderAuthError : TokenResult → Option (Nat × Json)
  | TokenResult.httpError status detail _ =>
      some (status, Json.obj [("detail", Json.str detail)])
  | _ => none

/-- Claim C2's well-formedness of an Authorization header: exactly two
space-separated parts whose first part case-insensitively equals
`bearer`. -/
def isBearerFormat (header : String) : Bool :=
  match pySplit ' ' header with
  | [scheme, _] => caseFold scheme == "bearer"
  | _ => false

/-- First required scope missing from the token's space-separated scope
claim. -/
def firstMissingScope (required : List String) (claim : String) : Option String :=
  required.find? (fun scope => !((pySplit ' ' claim).contains scope))

/-- Fixture: a decoder accepting one token whose payload carries a scope
claim. -/
def decodeFixture : String → Option Payload :=
  fun t => if t == "tok" then some [("scope", "read profile")] else none

/-- Fixture: a decoder accepting one token whose payload has no scope
claim. -/
def decodeNoScope : String → Option Payload :=
  fun t => if t == "tok" then some [("sub", "alice")] else none

/-! ## Transaction validation (`middleware/Cql2ValidateTransactionMiddleware.py`) -/

mutual
/-- One assignment of the `_deep_merge` loop: when the current value and
the override value are both mappings they are merged recursively, otherwise
the override value wins. -/
def deepMergeVal : Json → Json → Json
  | Json.obj b, Json.obj o => Json.obj (deepMerge b o)
  | _, v => v
termination_by _bv v => sizeOf v

/-- `_deep_merge(base, override)`: start from a copy of `base` and fold the
items of `override` into it in order. -/
def deepMerge (base : JDict) : JDict → JDict
  | [] => base
  | (k, v) :: rest =>
      deepMerge
        (match getd base k with
         | some bv => setd base k (deepMergeVal bv v)
         | none => setd base k v)
        rest
termination_by l => sizeOf l
end

/-- Result of `_fetch_existing`: an `httpx.HTTPError` (connection failure
or a non-404 error status raised by `raise_for_status`), an upstream 404
(`None`), or the current upstream record. -/
inductive FetchOutcome where
  | fetchError
  | notFound
  | found (record : JDict)

/-- Observable outcome of `_handle_update`: a short-circuit JSON error
response (status, `code`, `description`) sent without calling the inner
app, or the request forwarded upstream with its original body. -/
inductive TxnResponse where
  | reject (status : Nat) (code desc : String)
  | forward (body : JDict)

/-- `_handle_update` after the request body has parsed as a JSON object
(the earlier 400 branch for unparseable bodies is outside this claim).
The CQL2 filter is modelled by its `matches` predicate and the upstream
fetch by its outcome. -/
def handle_update (filterMatches : Json → Bool) (method : String)
    (fetched : FetchOutcome) (body_json : JDict) : TxnResponse :=
  match fetched with
  | FetchOutcome.fetchError =>
      TxnResponse.reject 502 "UpstreamError"
        "Failed to fetch record from upstream."
  | FetchOutcome.notFound =>
      TxnResponse.reject 404 "NotFoundError" "Record not found."
  | FetchOutcome.found existing =>
      if !(filterMatches (Json.obj existing)) then
        TxnResponse.reject 404 "NotFoundError" "Record not found."
      else
        let merged :=
          if method == "PATCH" then deepMerge existing body_json else body_json
        if !(filterMatches (Json.obj merged)) then
          TxnResponse.reject 403 "ForbiddenError"
            "Updated resource does not match access filter."
        else TxnResponse.forward body_json

/-- Fixture: the CQL2 filter `collection = 'allowed'` as a predicate on
records. -/
def collectionAllowed : Json → Bool
  | Json.obj kvs =>
      match getd kvs "collection" with
      | some (Json.str s) => s == "allowed"
      | _ => false
  | _ => false

/-! ## CQL2 filter application (`middleware/ApplyCql2FilterMiddleware.py`) -/

/-- The single-item pattern `^/collections/([^/]+)/items/([^/]+)$` tested
by `ApplyCql2FilterMiddleware.__call__`. -/
def item_modify_path : PathPattern :=
  ⟨("/collections/".data.map RegexAtom.lit) ++ [RegexAtom.notSlashPlus] ++
   ("/items/".data.map RegexAtom.lit) ++ [RegexAtom.notSlashPlus], true⟩

/-- Which handler `ApplyCql2FilterMiddleware.__call__` delegates to: pass
through without a filter; augment the request body on POST/PUT/PATCH;
validate the response body on a single-item path; otherwise append the
filter to the query string. -/
inductive Cql2Route where
  | passthrough
  | bodyAugment
  | responseValidation
  | queryString
deriving DecidableEq, Repr

def apply_cql2_route (method path : String) (filterPresent : Bool) :
    Cql2Route :=
  if !filterPresent then Cql2Route.passthrough
  else if method == "POST" || method == "PUT" || method == "PATCH" then
    Cql2Route.bodyAugment
  else if reMatch item_modify_path path then Cql2Route.responseValidation
  else Cql2Route.queryString

/-- Observable outcome of `Cql2ResponseBodyValidator.buffered_send` once
the whole upstream body has been buffered: the upstream response released
unchanged in status (body re-serialised), or a rewritten error response. -/
inductive ValidatorOutcome where
  | forwarded (status : Nat) (body : Json)
  | rewritten (status : Nat) (body : Json)

/-- `json.dumps({"message": message})`, the body of both rewritten
responses. -/
def messageBody (message : String) : Json :=
  Json.obj [("message", Json.str message)]

/-- `Cql2ResponseBodyValidator`: buffer the upstream body, 502 when it does
not parse as JSON (`parsedBody = none` models a `json.JSONDecodeError`),
404 when the filter rejects it, forwarded otherwise. -/
def cql2_response_validate (filterMatches : Json → Bool)
    (upstreamStatus : Nat) (parsedBody : Option Json) : ValidatorOutcome :=
  match parsedBody with
  | none => ValidatorOutcome.rewritten 502 (messageBody "Not found")
  | some body_json =>
      if filterMatches body_json then
        ValidatorOutcome.forwarded upstreamStatus body_json
      else ValidatorOutcome.rewritten 404 (messageBody "Not found")

/-! ## Filter insertion (`utils/filters.py`)

The cql2 library is the opaque algebra the spec describes: expressions are
built from a JSON (or CQL2-text string) value and combined with `+` (AND).
The serialisations below are a model of the library's output; no claim
depends on their exact shape. -/

inductive Cql2Expr where
  | fromVal (v : Json)
  | andE (l r : Cql2Expr)

/-- Model of `json.dumps` (compact; ASCII escaping limited to quote and
backslash, which no claim depends on). -/
def escapeJsonChar (c : Char) : String :=
  if c == '"' then "\\\"" else if c == '\\' then "\\\\" else String.singleton c

def escapeJsonString (s : String) : String :=
  String.join (s.data.map escapeJsonChar)

mutual
def jsonDumps : Json → String
  | Json.null => "null"
  | Json.bool b => if b then "true" else "false"
  | Json.num n => toString n
  | Json.str s => "\"" ++ escapeJsonString s ++ "\""
  | Json.arr elems => "[" ++ jsonDumpsList elems ++ "]"
  | Json.obj entries => "\x7b" ++ jsonDumpsEntries entries ++ "\x7d"
termination_by v => sizeOf v

def jsonDumpsList : List Json → String
  | [] => ""
  | [x] => jsonDumps x
  | x :: y :: rest => jsonDumps x ++ "," ++ jsonDumpsList (y :: rest)
termination_by l => sizeOf l

def jsonDumpsEntries : List (String × Json) → String
  | [] => ""
  | [(k, v)] => "\"" ++ escapeJsonString k ++ "\":" ++ jsonDumps v
  | (k, v) :: e :: rest =>
      "\"" ++ escapeJsonString k ++ "\":" ++ jsonDumps v ++ "," ++
        jsonDumpsEntries (e :: rest)
termination_by l => sizeOf l
end

def Cql2Expr.to_text : Cql2Expr → String
  | Cql2Expr.fromVal (Json.str s) => s
  | Cql2Expr.fromVal v => jsonDumps v
  | Cql2Expr.andE l r => "(" ++ l.to_text ++ " AND " ++ r.to_text ++ ")"

def Cql2Expr.to_json : Cql2Expr → Json
  | Cql2Expr.fromVal v => v
  | Cql2Expr.andE l r =>
      Json.obj [("op", Json.str "and"),
        ("args", Json.arr [l.to_json, r.to_json])]

/-- Python `filter_lang == "cql2-text"` where `filter_lang` may be any
value taken from the body. -/
def langIsText : Json → Bool
  | Json.str s => s == "cql2-text"
  | _ => false

/-- `filter.to_text() if filter_lang == "cql2-text" else filter.to_json()`. -/
def serializeFilter (lang : Json) (e : Cql2Expr) : Json :=
  if langIsText lang then Json.str e.to_text else e.to_json

/-- `append_body_filter(body, filter, filter_lang)`: AND-combine with a
truthy existing `filter` value, resolve `filter_lang` by Python `or`
(parameter when truthy, else the body's value, else `"cql2-json"`), then
rebuild the dict with the serialised filter and the language. -/
def append_body_filter (body : JDict) (filter : Cql2Expr)
    (filter_lang : Option String) : JDict :=
  let cur_filter := getd body "filter"
  let lang : Json :=
    match filter_lang with
    | some l =>
        if l == "" then (getd body "filter-lang").getD (Json.str "cql2-json")
        else Json.str l
    | none => (getd body "filter-lang").getD (Json.str "cql2-json")
  let combined : Cql2Expr :=
    match cur_filter with
    | some cf =>
        if cf.truthy then Cql2Expr.andE filter (Cql2Expr.fromVal cf) else filter
    | none => filter
  let filterVal : Json :=
    if langIsText lang then Json.str combined.to_text else combined.to_json
  setd (setd body "filter" filterVal) "filter-lang" lang

/-- Python `str(v)` for the scalar values that can appear in a querystring
dict (dicts and lists are JSON-dumped separately). -/
def pyStr : Json → String
  | Json.str s => s
  | Json.num n => toString n
  | Json.bool true => "True"
  | Json.bool false => "False"
  | Json.null => "None"
  | v => jsonDumps v

/-- `dict_to_query_string`: `key=value` parts joined by `&`; dict and list
values are JSON-dumped compactly. -/
def dict_to_query_string (params : JDict) : String :=
  String.intercalate "&"
    (params.map (fun kv =>
      kv.1 ++ "=" ++
        (match kv.2 with
         | Json.obj o => jsonDumps (Json.obj o)
         | Json.arr a => jsonDumps (Json.arr a)
         | v => pyStr v)))

def plusToSpace (s : String) : String :=
  String.mk (s.data.map (fun c => if c == '+' then ' ' else c))

/-- Split a character list at the first occurrence of `sep`; `none` when
absent.  Mirrors Python `s.split(sep, 1)`. -/
def breakAtChar (sep : Char) : List Char → Option (List Char × List Char)
  | [] => none
  | c :: cs =>
      if c == sep then some ([], cs)
      else (breakAtChar sep cs).map (fun p => (c :: p.1, p.2))

/-- Model of `urllib.parse.parse_qsl` with its defaults: fields split on
`&`, each at its first `=`; fields without `=` or with an empty value are
dropped (`keep_blank_values=False`); `+` decodes to a space.
Percent-escapes are treated as literal text (querystrings are modelled as
already-decoded). -/
def parseQsl (qs : String) : List (String × String) :=
  (pySplit '&' qs).filterMap (fun part =>
    match breakAtChar '=' part.data with
    | none => none
    | some (nm, vl) =>
        if vl.isEmpty then none
        else some (plusToSpace (String.mk nm), plusToSpace (String.mk vl)))

/-- `{k: v[0] for k, v in parse_qs(qs).items()}`: the first value for each
key, keys in order of first appearance. -/
def qsFirstDict (pairs : List (String × String)) : List (String × String) :=
  pairs.foldl
    (fun acc kv => if acc.any (fun kv2 => kv2.1 == kv.1) then acc
      else acc ++ [kv]) []

/-- `append_qs_filter(qs, filter, filter_lang)` (the model returns the
querystring text; the source encodes it to UTF-8 bytes). -/
def append_qs_filter (qs : String) (filter : Cql2Expr)
    (filter_lang : Option String) : String :=
  let qs_dict := qsFirstDict (parseQsl qs)
  let body : JDict := qs_dict.map (fun kv => (kv.1, Json.str kv.2))
  let lang : String :=
    match filter_lang with
    | some l =>
        if l == "" then (lookupClaim qs_dict "filter-lang").getD "cql2-text"
        else l
    | none => (lookupClaim qs_dict "filter-lang").getD "cql2-text"
  dict_to_query_string (append_body_filter body filter (some lang))

/-! ## Streaming JSON response mutator (`utils/middleware.py`,
`JsonResponseMiddleware.__call__`) -/

/-- Byte strings as lists of byte values.  The JSON text the mutator
re-serialises converts via character codes (ASCII in this model). -/
abbrev ByteStr := List Nat

def strBytes (s : String) : ByteStr :=
  s.data.map Char.toNat

/-- A compression codec: the `compress`/`decompress` pair of the `gzip`,
`zlib` or `brotli` module (for `deflate`, `decompress` carries the
`-zlib.MAX_WBITS` argument the code passes). -/
structure EncodingHandler where
  compress : ByteStr → ByteStr
  decompress : ByteStr → ByteStr

/-- The `ENCODING_HANDLERS` table. -/
def encodingHandlers (g d b : EncodingHandler) :
    String → Option EncodingHandler :=
  fun enc =>
    if enc == "gzip" then some g
    else if enc == "deflate" then some d
    else if enc == "br" then some b
    else none

/-- `MutableHeaders.get`: first case-insensitive match. -/
def headersGet (hs : List (String × String)) (k : String) : Option String :=
  (hs.find? (fun kv => caseFold kv.1 == caseFold k)).map (fun kv => kv.2)

/-- `MutableHeaders.__setitem__`: the key is lowercased; the first entry
stored under exactly that key is replaced and later duplicates dropped,
else the pair is appended. -/
def setHeaderGo (k v : String) : List (String × String) → List (String × String)
  | [] => [(k, v)]
  | kv :: rest =>
      if kv.1 == k then (k, v) :: rest.filter (fun kv2 => !(kv2.1 == k))
      else kv :: setHeaderGo k v rest

def setHeader (hs : List (String × String)) (key value : String) :
    List (String × String) :=
  setHeaderGo (caseFold key) value hs

/-- Observable outcome of one response passing through
`JsonResponseMiddleware.__call__`: forwarded untouched (transformation not
requested), an uncaught Python exception (the `assert` on an unsupported
content encoding, or `json.loads` failing), or the rewritten start message
headers and single body chunk. -/
inductive MutatorOutcome where
  | passthrough
  | pyError
  | emitted (headers : List (String × String)) (body : ByteStr)
deriving DecidableEq

/-- Tail of the `process_message` handler, after decompression: parse the
body (`parseJson` models `json.loads`; `none` is the uncaught
`JSONDecodeError`), transform, re-serialise, re-compress with the handler
in effect, and set `content-length` to the emitted body's length. -/
def jsonMutatorFinish (hOpt : Option EncodingHandler)
    (parseJson : ByteStr → Option Json) (transform : Json → Json)
    (headers0 : List (String × String)) (bodyD : ByteStr) : MutatorOutcome :=
  match parseJson bodyD with
  | none => MutatorOutcome.pyError
  | some data =>
      let newBody := strBytes (jsonDumps (transform data))
      let finalBody :=
        match hOpt with
        | some h => h.compress newBody
        | none => newBody
      MutatorOutcome.emitted
        (setHeader headers0 "content-length" (toString finalBody.length))
        finalBody

/-- The response half of `JsonResponseMiddleware.__call__`: accumulate the
body chunks, look up the lowercased `Content-Encoding` (empty when absent;
an unrecognised one fires the `assert`), decompress with the handler, and
run the parse/transform/re-compress tail. -/
def json_response_middleware (shouldTransform : Bool)
    (handlers : String → Option EncodingHandler)
    (parseJson : ByteStr → Option Json) (transform : Json → Json)
    (headers0 : List (String × String)) (chunks : List ByteStr) :
    MutatorOutcome :=
  if !shouldTransform then MutatorOutcome.passthrough
  else
    let content_encoding :=
      caseFold ((headersGet headers0 "content-encoding").getD "")
    if content_encoding == "" then
      jsonMutatorFinish none parseJson transform headers0 chunks.flatten
    else
      match handlers content_encoding with
      | none => MutatorOutcome.pyError
      | some handler =>
          jsonMutatorFinish (some handler) parseJson transform headers0
            (handler.decompress chunks.flatten)

/-- Fixture codec: prepend a marker byte on compression. -/
def codecFixture : EncodingHandler :=
  ⟨fun bs => 0 :: bs, fun bs => bs.drop 1⟩

/-- Fixture parser: every body parses as JSON `null`. -/
def parseNullFixture : ByteStr → Option Json :=
  fun _ => some Json.null

/-! ## Link rewriting (`middleware/ProcessLinksMiddleware.py`)

`urllib.parse.urlparse` / `urlunparse` are modelled at the `urlsplit`
level: scheme, netloc, path, query, fragment.  Python's extra `params`
component (split off the last path segment at `;`) stays inside `path`
here; it is re-joined verbatim by `urlunparse`, and no behaviour below
distinguishes the two representations for the inputs of the claims. -/

def strStartsWith (s pre : String) : Bool :=
  List.isPrefixOf pre.data s.data

def isSchemeChar (c : Char) : Bool :=
  c.isAlpha || c.isDigit || c == '+' || c == '-' || c == '.'

structure ParseResult where
  scheme : String
  netloc : String
  path : String
  query : String
  fragment : String
deriving DecidableEq, Repr

/-- Scheme detection of `urlsplit`: the text before the first `:` when it
is non-empty, starts with a letter and uses only scheme characters;
lowercased. -/
def splitScheme (url : List Char) : String × List Char :=
  match breakAtChar ':' url with
  | none => ("", url)
  | some (before, after) =>
      match before with
      | [] => ("", url)
      | c0 :: _ =>
          if c0.isAlpha && before.all isSchemeChar then
            (caseFold (String.mk before), after)
          else ("", url)

/-- Consume characters up to the first delimiter. -/
def takeUntilDelims (delims : List Char) : List Char → List Char × List Char
  | [] => ([], [])
  | c :: cs =>
      if delims.contains c then ([], c :: cs)
      else
        let p := takeUntilDelims delims cs
        (c :: p.1, p.2)

/-- Model of `urllib.parse.urlparse` (at `urlsplit` granularity). -/
def urlparseModel (url : String) : ParseResult :=
  let sp := splitScheme url.data
  let nl :=
    match sp.2 with
    | '/' :: '/' :: rest => takeUntilDelims ['/', '?', '#'] rest
    | rest => ([], rest)
  let fr :=
    match breakAtChar '#' nl.2 with
    | some p => p
    | none => (nl.2, [])
  let qu :=
    match breakAtChar '?' fr.1 with
    | some p => p
    | none => (fr.1, [])
  ⟨sp.1, String.mk nl.1, String.mk qu.1, String.mk qu.2, String.mk fr.2⟩

/-- Model of `urllib.parse.urlunparse` (via `urlunsplit`). -/
def urlunparseModel (p : ParseResult) : String :=
  let url := p.path
  let url :=
    if p.netloc ≠ "" || strStartsWith url "//" then
      "//" ++ p.netloc ++
        (if url ≠ "" && !(strStartsWith url "/") then "/" ++ url else url)
    else url
  let url := if p.scheme ≠ "" then p.scheme ++ ":" ++ url else url
  let url := if p.query ≠ "" then url ++ "?" ++ p.query else url
  if p.fragment ≠ "" then url ++ "#" ++ p.fragment else url

def containsChar (s : String) (c : Char) : Bool :=
  s.data.contains c

/-- Index of the last occurrence of `c` (Python `str.rfind`, as an
`Option`). -/
def rfindIdx (c : Char) (l : List Char) : Option Nat :=
  match breakAtChar c l.reverse with
  | none => none
  | some p => some (l.length - 1 - p.1.length)

def splitFirstColon (netloc : String) : String :=
  match breakAtChar ':' netloc.data with
  | some p => String.mk p.1
  | none => netloc

/-- `_extract_hostname`. -/
def extract_hostname (netloc : String) : String :=
  if containsChar netloc ':' then
    if strStartsWith netloc "[" then
      match rfindIdx ']' netloc.data with
      | some i => String.mk (netloc.data.take (i + 1))
      | none => splitFirstColon netloc
    else splitFirstColon netloc
  else netloc

/-- Python `int(s)` restricted to plain digit strings (signs, whitespace
and underscores fail in this model as well as succeed only in exotic
inputs the proxy never sees); `none` is a `ValueError`. -/
def pyIntDigits (s : List Char) : Option Nat :=
  if s ≠ [] && s.all Char.isDigit then
    some (s.foldl (fun acc c => acc * 10 + (c.toNat - 48)) 0)
  else none

/-- `_get_port`: an explicit port when present and parseable, else the
scheme's standard port. -/
def get_port (netloc scheme : String) : Nat :=
  let dflt := if scheme == "https" then 443 else 80
  if containsChar netloc ':' then
    if strStartsWith netloc "[" then
      match rfindIdx ']' netloc.data with
      | some i =>
          if i + 1 < netloc.data.length then
            match pyIntDigits (netloc.data.drop (i + 2)) with
            | some n => n
            | none => dflt
          else dflt
      | none => dflt
    else
      match breakAtChar ':' netloc.data with
      | some p =>
          match pyIntDigits p.2 with
          | some n => n
          | none => dflt
      | none => dflt
  else dflt

/-- `_netlocs_match`: equal hostnames (case-insensitive) and equal
effective ports. -/
def netlocs_match (netloc1 scheme1 netloc2 scheme2 : String) : Bool :=
  caseFold (extract_hostname netloc1) == caseFold (extract_hostname netloc2) &&
    get_port netloc1 scheme1 == get_port netloc2 scheme2

/-- `ProcessLinksMiddleware._update_link` on one link object.  A link
without an `href`, or with a non-string one (where `urlparse` raises and
`transform_json` swallows the exception), is left unchanged. -/
def update_link (request_url upstream_url : ParseResult)
    (root_path : Option String) (link : JDict) : JDict :=
  match getd link "href" with
  | some (Json.str href) =>
      let parsed_link := urlparseModel href
      if !(netlocs_match parsed_link.netloc parsed_link.scheme
            request_url.netloc request_url.scheme ||
          netlocs_match parsed_link.netloc parsed_link.scheme
            upstream_url.netloc upstream_url.scheme) then
        link
      else if upstream_url.path ≠ "/" &&
          !(strStartsWith parsed_link.path upstream_url.path) then
        link
      else
        let link_matches_upstream :=
          netlocs_match parsed_link.netloc parsed_link.scheme
            upstream_url.netloc upstream_url.scheme
        let pl1 := { parsed_link with netloc := request_url.netloc }
        let pl2 :=
          if link_matches_upstream then { pl1 with scheme := request_url.scheme }
          else pl1
        let pl3 :=
          if upstream_url.path ≠ "/" &&
              strStartsWith pl2.path upstream_url.path then
            { pl2 with
                path := String.mk (pl2.path.data.drop upstream_url.path.data.length) }
          else pl2
        let pl4 :=
          match root_path with
          | some rp => if rp ≠ "" then { pl3 with path := rp ++ pl3.path } else pl3
          | none => pl3
        let updated_href := urlunparseModel pl4
        if updated_href == href then link
        else setd link "href" (Json.str updated_href)
  | _ => link

/-- Map a function over the elements of the array stored under `key`,
leaving the dict alone when the key is absent or not an array. -/
def updateKeyArr (key : String) (g : Json → Json) (d : JDict) : JDict :=
  match getd d key with
  | some (Json.arr xs) => setd d key (Json.arr (xs.map g))
  | _ => d

/-- Apply `f` to each link object of the value `x` when it is one. -/
def onLinkObj (f : JDict → JDict) : Json → Json
  | Json.obj l => Json.obj (f l)
  | other => other

/-- Rewrite the link objects of one `links` array value. -/
def updateLinksIn (f : JDict → JDict) (d : JDict) : JDict :=
  updateKeyArr "links" (onLinkObj f) d

/-- Rewrite the `links` of each object of an embedded array (`features` or
`collections`). -/
def updateItemsLinks (f : JDict → JDict) (key : String) (d : JDict) : JDict :=
  updateKeyArr key (onLinkObj (updateLinksIn f)) d

/-- The leading-slash normalisation `urlunsplit` applies to a path placed
after a netloc. -/
def normSlash (p : String) : String :=
  if p ≠ "" && !(strStartsWith p "/") then "/" ++ p else p

/-- Modelled from the spec: `get_links` (from the `utils/stac.py` helper,
absent from the provided sources) yields every link object of the
document's `links` array and of each `features[*].links` and
`collections[*].links` array; `transform_json` rewrites each of them in
place via `_update_link`.  The client-visible base URL that the missing
`get_base_url` computes is the `request_url` argument, held constant as
the claim requires. -/
def rewriteDoc (request_url upstream_url : ParseResult)
    (root_path : Option String) : Json → Json
  | Json.obj d =>
      Json.obj
        (updateItemsLinks (update_link request_url upstream_url root_path)
          "collections"
          (updateItemsLinks (update_link request_url upstream_url root_path)
            "features"
            (updateLinksIn (update_link request_url upstream_url root_path) d)))
  | other => other

/-- The href of the first link of the document, when it is a string. -/
def firstLinkHrefStr (doc : Json) : Option String :=
  match doc with
  | Json.obj d =>
      match getd d "links" with
      | some (Json.arr (Json.obj l :: _)) =>
          match getd l "href" with
          | some (Json.str s) => some s
          | _ => none
      | _ => none
  | _ => none

/-- Well-formedness of a scheme string in the sense `urlsplit` detects
one: empty, or starting with a letter, all scheme characters, already
lowercase. -/
def validScheme (s : String) : Bool :=
  match s.data with
  | [] => true
  | c0 :: _ => c0.isAlpha && s.data.all isSchemeChar && (caseFold s == s)

def validNetloc (n : String) : Bool :=
  n ≠ "" && n.data.all (fun c => !(c == '/') && !(c == '?') && !(c == '#'))

/-! ## Theorems -/

theorem any_eq_find?_isSome {α : Type} (p : α → Bool) :
    ∀ l : List α, l.any p = (l.find? p).isSome
  | [] => rfl
  | a :: l => by
    simp only [List.any_cons, List.find?]
    cases h : p a <;> simp [any_eq_find?_isSome p l]

theorem methodScan_eq (method : String) :
    ∀ ems : List EndpointMethod,
      methodScan method ems =
        (ems.find? (fun em => caseFold method == caseFold em.name)).map
          EndpointMethod.scopes
  | [] => rfl
  | em :: rest => by
    have ih := methodScan_eq method rest
    cases em with
    | plain n =>
      have hname : EndpointMethod.name (EndpointMethod.plain n) = n := rfl
      simp only [methodScan, List.find?, hname]
      cases h : (caseFold method == caseFold n) <;>
        simp [h, ih, EndpointMethod.scopes]
    | withScopes n s =>
      have hname : EndpointMethod.name (EndpointMethod.withScopes n s) = n := rfl
      simp only [methodScan, List.find?, hname]
      cases h : (caseFold method == caseFold n) <;>
        simp [h, ih, EndpointMethod.scopes]

theorem findMatchScan_eq (path method : String) (dp : Bool) :
    ∀ l : EndpointMethods,
      findMatchScan path method dp l =
        (match l.find? (entryMatchesWith reMatch path method) with
         | some e => ⟨dp, firstScopes method e.2⟩
         | none => ⟨!dp, []⟩)
  | [] => rfl
  | (pat, ems) :: rest => by
    have ih := findMatchScan_eq path method dp rest
    have hany := any_eq_find?_isSome
      (fun em => caseFold method == caseFold em.name) ems
    simp only [findMatchScan, methodScan_eq, List.find?, entryMatchesWith]
    cases hm : reMatch pat path with
    | false => simp [hm, ih]
    | true =>
      cases hfind : ems.find? (fun em => caseFold method == caseFold em.name) with
      | some em =>
        rw [hfind] at hany
        simp [hm, hfind, hany, firstScopes]
      | none =>
        rw [hfind] at hany
        simp [hm, hfind, hany, ih]

/-- C1 (amended): `find_match` agrees everywhere with the amended claim:
first entry of the consulted map whose regex matches at the start of the
path and whose method list contains the method case-insensitively, with
`is_private = default_public` and the matched method entry's scope list
whichever map was consulted; `is_private = not default_public` with no
scopes when no entry matches. -/
theorem find_match_eq_amended_claim (path method : String)
    (priv pub : EndpointMethods) (dp : Bool) :
    find_match path method priv pub dp = findMatchAmendedC1 path method priv pub dp := by
  unfold find_match findMatchAmendedC1
  rw [findMatchScan_eq]

/-- C1 (counterexample): the claim as stated fails against the code on two
concrete inputs: a pattern that matches only a proper leading segment of
the path still fires (`re.match` is not a full match), and a scope-tagged
entry of the consulted public map yields its scope list rather than `[]`. -/
theorem find_match_claim_counterexample :
    find_match "/ab" "GET"
        [(litPattern "/a" false, [EndpointMethod.plain "GET"])] [] true ≠
      findMatchClaimC1 "/ab" "GET"
        [(litPattern "/a" false, [EndpointMethod.plain "GET"])] [] true ∧
    find_match "/b" "get" []
        [(litPattern "/b" true, [EndpointMethod.withScopes "GET" ["s"]])] false ≠
      findMatchClaimC1 "/b" "get" []
        [(litPattern "/b" true, [EndpointMethod.withScopes "GET" ["s"]])] false := by
  constructor <;> decide

theorem findMatchScan_is_private (path method : String) (dp : Bool)
    (l : EndpointMethods) :
    (findMatchScan path method dp l).is_private =
      (if l.any (entryMatchesWith reMatch path method) then dp else !dp) := by
  rw [findMatchScan_eq, any_eq_find?_isSome]
  cases l.find? (entryMatchesWith reMatch path method) <;> simp

/-- C6: classifier dualism.  If the public map `M'` matches exactly the
requests that the private map `M` does not, then classifying with
`default_public = true` and private map `M` marks the request private
exactly when classifying with `default_public = false` and public map `M'`
does. -/
theorem find_match_dualism (path method : String)
    (M M' other other' : EndpointMethods)
    (hcomp : mapMatches M' path method = !mapMatches M path method) :
    (find_match path method M other true).is_private = true ↔
      (find_match path method other' M' false).is_private = true := by
  unfold mapMatches at hcomp
  unfold find_match
  rw [findMatchScan_is_private, findMatchScan_is_private]
  rw [show (if (true : Bool) = true then M else other) = M from rfl]
  rw [show (if (false : Bool) = true then other' else M') = M' from rfl]
  rw [hcomp]
  cases M.any (entryMatchesWith reMatch path method) <;> simp

/-- C6 witness: a pair of maps complementary at a concrete request. -/
theorem find_match_dualism_witness :
    mapMatches [(litPattern "/y" true, [EndpointMethod.plain "GET"])] "/y" "GET" =
      !mapMatches [(litPattern "/x" true, [EndpointMethod.plain "GET"])] "/y" "GET" ∧
    ((find_match "/y" "GET" [(litPattern "/x" true, [EndpointMethod.plain "GET"])]
        [] true).is_private = true ↔
      (find_match "/y" "GET" []
        [(litPattern "/y" true, [EndpointMethod.plain "GET"])] false).is_private = true) :=
  ⟨by decide,
   find_match_dualism "/y" "GET"
     [(litPattern "/x" true, [EndpointMethod.plain "GET"])]
     [(litPattern "/y" true, [EndpointMethod.plain "GET"])] [] [] (by decide)⟩

theorem scopeLoop_missing (payload : Payload) (claim missing : String)
    (hclaim : lookupClaim payload "scope" = some claim) :
    ∀ required : List String,
      firstMissingScope required claim = some missing →
      scopeLoop payload required =
          TokenResult.httpError 401 "Not enough permissions"
            (some ("Bearer scope=\"" ++ missing ++ "\"")) ∧
        required.contains missing = true ∧
        (pySplit ' ' claim).contains missing = false
  | [], h => by simp [firstMissingScope] at h
  | scope :: rest, h => by
    unfold firstMissingScope at h
    simp only [List.find?] at h
    cases hc : (pySplit ' ' claim).contains scope with
    | true =>
      rw [hc] at h
      simp only [Bool.not_true] at h
      have ih := scopeLoop_missing payload claim missing hclaim rest h
      refine ⟨?_, ?_, ih.2.2⟩
      · simp only [scopeLoop, hclaim, hc, if_true]
        exact ih.1
      · simp [List.contains_cons]
        exact Or.inr (by simpa using ih.2.1)
    | false =>
      rw [hc] at h
      simp only [Bool.not_false] at h
      have hm : scope = missing := by simpa using h
      subst hm
      refine ⟨?_, by simp, hc⟩
      simp [scopeLoop, hclaim]
      intro hmem
      exact absurd hmem (by simpa using hc)

/-- C2: error paths of `validate_token`.  A private request without an
Authorization header yields 403 rendered as a `detail: Not authenticated`
body; a non-empty header that is not exactly `Bearer <token>` yields 401
with `WWW-Authenticate: Bearer`; a validating token whose space-separated
scope claim omits a required scope yields 401 whose `WWW-Authenticate`
value names the first such missing scope. -/
theorem validate_token_error_paths (decode : String → Option Payload) :
    (∀ required_scopes : List String,
      validate_token decode none true required_scopes =
          TokenResult.httpError 403 "Not authenticated" none ∧
        renderAuthError (validate_token decode none true required_scopes) =
          some (403, Json.obj [("detail", Json.str "Not authenticated")])) ∧
    (∀ (header : String) (auto_error : Bool) (required_scopes : List String),
      header ≠ "" →
      isBearerFormat header = false →
      validate_token decode (some header) auto_error required_scopes =
        TokenResult.httpError 401 "Could not validate credentials"
          (some "Bearer")) ∧
    (∀ (header scheme token : String) (auto_error : Bool)
        (required_scopes : List String) (payload : Payload)
        (claim missing : String),
      pySplit ' ' header = [scheme, token] →
      caseFold scheme = "bearer" →
      decode token = some payload →
      lookupClaim payload "scope" = some claim →
      firstMissingScope required_scopes claim = some missing →
      validate_token decode (some header) auto_error required_scopes =
          TokenResult.httpError 401 "Not enough permissions"
            (some ("Bearer scope=\"" ++ missing ++ "\"")) ∧
        required_scopes.contains missing = true ∧
        (pySplit ' ' claim).contains missing = false) := by
  refine ⟨fun required_scopes => ⟨rfl, rfl⟩, ?_, ?_⟩
  · intro header auto_error required_scopes hne hbad
    unfold isBearerFormat at hbad
    rcases hs : pySplit ' ' header with _ | ⟨a, _ | ⟨b, _ | ⟨c, l⟩⟩⟩
    · rw [hs] at hbad
      simp [validate_token, hne, hs]
    · rw [hs] at hbad
      simp [validate_token, hne, hs]
    · rw [hs] at hbad
      simp only [] at hbad
      simp [validate_token, hne, hs]
      intro habs
      exact absurd habs (by simpa using hbad)
    · rw [hs] at hbad
      simp [validate_token, hne, hs]
  · intro header scheme token auto_error required_scopes payload claim missing
      hsplit hbearer hdecode hclaim hmiss
    have hne : header ≠ "" := by
      intro h0
      rw [h0] at hsplit
      rw [show pySplit ' ' "" = [""] from rfl] at hsplit
      simp at hsplit
    have hres := scopeLoop_missing payload claim missing hclaim
      required_scopes hmiss
    refine ⟨?_, hres.2.1, hres.2.2⟩
    simp [validate_token, hne, hsplit, hbearer, hdecode]
    exact hres.1

/-- C2 witness: the three error paths at concrete inputs. -/
theorem validate_token_error_paths_witness :
    validate_token decodeFixture none true [] =
        TokenResult.httpError 403 "Not authenticated" none ∧
    validate_token decodeFixture (some "Token abc") true [] =
        TokenResult.httpError 401 "Could not validate credentials"
          (some "Bearer") ∧
    validate_token decodeFixture (some "Bearer tok") true ["write"] =
        TokenResult.httpError 401 "Not enough permissions"
          (some "Bearer scope=\"write\"") :=
  ⟨((validate_token_error_paths decodeFixture).1 []).1,
   (validate_token_error_paths decodeFixture).2.1 "Token abc" true []
     (by decide) (by decide),
   ((validate_token_error_paths decodeFixture).2.2 "Bearer tok" "Bearer" "tok"
     true ["write"] [("scope", "read profile")] "read profile" "write"
     (by decide) (by decide) (by decide) (by decide) (by decide)).1⟩

theorem scopeLoop_permission_error_needs_scope (payload : Payload)
    (w : Option String) :
    ∀ required : List String,
      scopeLoop payload required =
        TokenResult.httpError 401 "Not enough permissions" w →
      (lookupClaim payload "scope").isSome = true
  | [], h => by simp [scopeLoop] at h
  | scope :: rest, h => by
    unfold scopeLoop at h
    cases hc : lookupClaim payload "scope" with
    | none => rw [hc] at h; simp at h
    | some claim => simp [hc]

/-- C9: with a validating bearer token, a non-empty required-scope list and
a payload lacking the `scope` claim, `validate_token` raises an uncaught
`KeyError` at `payload["scope"]` rather than the 401 `Not enough
permissions` response; that error is only reachable when the claim is
present. -/
theorem validate_token_scope_keyerror (decode : String → Option Payload) :
    (∀ (header scheme token : String) (auto_error : Bool)
        (scope0 : String) (more : List String) (payload : Payload),
      pySplit ' ' header = [scheme, token] →
      caseFold scheme = "bearer" →
      decode token = some payload →
      lookupClaim payload "scope" = none →
      validate_token decode (some header) auto_error (scope0 :: more) =
        TokenResult.pyKeyError "scope") ∧
    (∀ (auth_header : Option String) (auto_error : Bool)
        (required_scopes : List String) (w : Option String),
      validate_token decode auth_header auto_error required_scopes =
        TokenResult.httpError 401 "Not enough permissions" w →
      ∃ (token : String) (payload : Payload),
        decode token = some payload ∧
          (lookupClaim payload "scope").isSome = true) := by
  constructor
  · intro header scheme token auto_error scope0 more payload hsplit hbearer
      hdecode hnoclaim
    have hne : header ≠ "" := by
      intro h0
      rw [h0] at hsplit
      rw [show pySplit ' ' "" = [""] from rfl] at hsplit
      simp at hsplit
    simp [validate_token, hne, hsplit, hbearer, hdecode, scopeLoop, hnoclaim]
  · intro auth_header auto_error required_scopes w h
    cases auth_header with
    | none =>
      simp only [validate_token] at h
      cases auto_error <;> simp_all
    | some header =>
      by_cases h0 : header = ""
      · simp only [validate_token, h0] at h
        cases auto_error <;> simp_all
      · simp only [validate_token, if_neg h0] at h
        rcases hs : pySplit ' ' header with _ | ⟨a, _ | ⟨b, _ | ⟨c, l⟩⟩⟩ <;>
          rw [hs] at h
        · simp at h
        · simp at h
        · simp only [] at h
          split at h
          · simp at h
          · split at h
            · simp at h
            · rename_i payload hd
              exact ⟨b, payload, hd,
                scopeLoop_permission_error_needs_scope payload w
                  required_scopes h⟩
        · simp at h

/-- C9 witness: a decoded payload with no `scope` claim at a concrete
request. -/
theorem validate_token_scope_keyerror_witness :
    validate_token decodeNoScope (some "Bearer tok") true ["read"] =
      TokenResult.pyKeyError "scope" :=
  (validate_token_scope_keyerror decodeNoScope).1 "Bearer tok" "Bearer" "tok"
    true "read" [] [("sub", "alice")] (by decide) (by decide) (by decide)
    (by decide)

theorem getd_cons (a : String) (b : Json) (d : JDict) (k : String) :
    getd ((a, b) :: d) k = if a == k then some b else getd d k := by
  simp only [getd, List.find?]
  cases h : a == k <;> simp [h]

theorem hasKey_eq_isSome (k : String) :
    ∀ d : JDict, hasKey d k = (getd d k).isSome
  | [] => rfl
  | (a, b) :: d => by
    simp only [hasKey, List.any_cons, getd_cons]
    cases h : a == k with
    | true => simp
    | false =>
      simp only [Bool.false_or, if_neg Bool.false_ne_true]
      exact hasKey_eq_isSome k d

theorem getd_eq_none_of_hasKey_false (d : JDict) (k : String)
    (h : hasKey d k = false) : getd d k = none := by
  have hs := hasKey_eq_isSome k d
  rw [h] at hs
  cases hg : getd d k
  · rfl
  · rw [hg] at hs; simp at hs

theorem getd_append (d1 d2 : JDict) (k : String) :
    getd (d1 ++ d2) k =
      (match getd d1 k with
       | some v => some v
       | none => getd d2 k) := by
  induction d1 with
  | nil => rfl
  | cons kv d1 ih =>
    obtain ⟨a, b⟩ := kv
    rw [List.cons_append, getd_cons, getd_cons]
    cases h : a == k with
    | true => rw [if_pos rfl, if_pos rfl]
    | false => rw [if_neg Bool.false_ne_true, if_neg Bool.false_ne_true, ih]

theorem getd_map_set_same (k : String) (v : Json) :
    ∀ d : JDict, hasKey d k = true →
      getd (d.map (fun kv => if kv.1 == k then (k, v) else kv)) k = some v
  | [], hk => by simp [hasKey] at hk
  | (a, b) :: d, hk => by
    simp only [List.map_cons]
    cases h : a == k with
    | true =>
      rw [if_pos rfl, getd_cons, if_pos (beq_self_eq_true k)]
    | false =>
      rw [if_neg Bool.false_ne_true, getd_cons,
        if_neg (ne_true_of_eq_false h)]
      have hk' : hasKey d k = true := by
        simp only [hasKey, List.any_cons, h, Bool.false_or] at hk
        exact hk
      exact getd_map_set_same k v d hk'

theorem getd_map_set_other (k k' : String) (v : Json) (hne : k ≠ k') :
    ∀ d : JDict,
      getd (d.map (fun kv => if kv.1 == k then (k, v) else kv)) k' = getd d k'
  | [] => rfl
  | (a, b) :: d => by
    simp only [List.map_cons]
    cases h : a == k with
    | true =>
      have ha : a = k := by simpa using h
      rw [if_pos rfl, getd_cons, getd_cons,
        if_neg (by simp only [beq_iff_eq]; exact hne),
        if_neg (by simp only [beq_iff_eq, ha]; exact hne)]
      exact getd_map_set_other k k' v hne d
    | false =>
      rw [if_neg Bool.false_ne_true, getd_cons, getd_cons]
      cases h2 : a == k' with
      | true => rw [if_pos rfl, if_pos rfl]
      | false =>
        rw [if_neg Bool.false_ne_true, if_neg Bool.false_ne_true]
        exact getd_map_set_other k k' v hne d

theorem getd_setd_same (d : JDict) (k : String) (v : Json) :
    getd (setd d k v) k = some v := by
  unfold setd
  cases hh : hasKey d k with
  | true => rw [if_pos rfl]; exact getd_map_set_same k v d hh
  | false =>
    rw [if_neg Bool.false_ne_true, getd_append,
      getd_eq_none_of_hasKey_false d k hh, getd_cons,
      if_pos (beq_self_eq_true k)]

theorem getd_setd_other (d : JDict) (k k' : String) (v : Json) (hne : k ≠ k') :
    getd (setd d k v) k' = getd d k' := by
  unfold setd
  cases hh : hasKey d k with
  | true => rw [if_pos rfl]; exact getd_map_set_other k k' v hne d
  | false =>
    rw [if_neg Bool.false_ne_true, getd_append]
    cases hg : getd d k' with
    | none =>
      change getd [(k, v)] k' = none
      rw [getd_cons, if_neg (by simp only [beq_iff_eq]; exact hne)]
      rfl
    | some w => rfl

theorem getd_eq_none_of_not_mem_keys (k : String) :
    ∀ d : JDict, k ∉ d.map Prod.fst → getd d k = none
  | [], _ => rfl
  | (a, b) :: d, h => by
    simp only [List.map_cons, List.mem_cons, not_or] at h
    rw [getd_cons, if_neg (by simp only [beq_iff_eq]; exact Ne.symm h.1)]
    exact getd_eq_none_of_not_mem_keys k d h.2

theorem getd_deepMerge_frame (k : String) :
    ∀ (override : JDict) (base : JDict), k ∉ override.map Prod.fst →
      getd (deepMerge base override) k = getd base k
  | [], base, _ => by simp [deepMerge]
  | (k0, v0) :: rest, base, h => by
    simp only [List.map_cons, List.mem_cons, not_or] at h
    simp only [deepMerge]
    rw [getd_deepMerge_frame k rest _ h.2]
    cases hb : getd base k0 <;>
      exact getd_setd_other base k0 k _ (Ne.symm h.1)

theorem getd_deepMerge (k : String) :
    ∀ (override base : JDict), (override.map Prod.fst).Nodup →
      getd (deepMerge base override) k =
        (match getd override k with
         | none => getd base k
         | some ov =>
             match getd base k, ov with
             | some (Json.obj bb), Json.obj oo =>
                 some (Json.obj (deepMerge bb oo))
             | _, _ => some ov)
  | [], base, _ => by simp [deepMerge, getd]
  | (k0, v0) :: rest, base, hnodup => by
    simp only [List.map_cons, List.nodup_cons] at hnodup
    simp only [deepMerge]
    rw [getd_deepMerge k rest _ hnodup.2]
    by_cases hk : k0 = k
    · subst hk
      have hrest : getd rest k0 = none :=
        getd_eq_none_of_not_mem_keys k0 rest hnodup.1
      rw [getd_cons, if_pos (beq_self_eq_true k0)]
      simp only [hrest]
      cases hb : getd base k0 with
      | none => simp only [getd_setd_same]
      | some bv =>
        simp only [getd_setd_same]
        cases bv <;> cases v0 <;> simp [deepMergeVal]
    · rw [getd_cons, if_neg (by simp only [beq_iff_eq]; exact hk)]
      cases hb : getd base k0 <;>
        rw [getd_setd_other base k0 k _ hk]

/-- C3: `_handle_update` on PATCH with an attached filter: a failed
upstream fetch yields 502; a missing record or one the filter rejects
yields 404; otherwise the deep merge of the existing record and the patch
body is validated, yielding 403 without forwarding when the merged record
no longer matches and forwarding otherwise.  The final conjunct is the
deep-merge semantics itself: nested mappings merge recursively and the
override value wins at any non-mapping value. -/
theorem handle_update_patch_spec (filterMatches : Json → Bool) (body : JDict) :
    (handle_update filterMatches "PATCH" FetchOutcome.fetchError body =
        TxnResponse.reject 502 "UpstreamError"
          "Failed to fetch record from upstream.") ∧
    (handle_update filterMatches "PATCH" FetchOutcome.notFound body =
        TxnResponse.reject 404 "NotFoundError" "Record not found.") ∧
    (∀ existing : JDict, filterMatches (Json.obj existing) = false →
      handle_update filterMatches "PATCH" (FetchOutcome.found existing) body =
        TxnResponse.reject 404 "NotFoundError" "Record not found.") ∧
    (∀ existing : JDict, filterMatches (Json.obj existing) = true →
      filterMatches (Json.obj (deepMerge existing body)) = false →
      handle_update filterMatches "PATCH" (FetchOutcome.found existing) body =
        TxnResponse.reject 403 "ForbiddenError"
          "Updated resource does not match access filter.") ∧
    (∀ existing : JDict, filterMatches (Json.obj existing) = true →
      filterMatches (Json.obj (deepMerge existing body)) = true →
      handle_update filterMatches "PATCH" (FetchOutcome.found existing) body =
        TxnResponse.forward body) ∧
    (∀ (override base : JDict) (k : String), (override.map Prod.fst).Nodup →
      getd (deepMerge base override) k =
        (match getd override k with
         | none => getd base k
         | some ov =>
             match getd base k, ov with
             | some (Json.obj bb), Json.obj oo =>
                 some (Json.obj (deepMerge bb oo))
             | _, _ => some ov)) := by
  refine ⟨rfl, rfl, ?_, ?_, ?_, ?_⟩
  · intro existing hmiss
    simp [handle_update, hmiss]
  · intro existing hhit hmerged
    simp [handle_update, hhit, hmerged]
  · intro existing hhit hmerged
    simp [handle_update, hhit, hmerged]
  · intro override base k hnodup
    exact getd_deepMerge k override base hnodup

/-- C3 witness: the spec's own scenario: filter `collection = 'allowed'`,
existing record in the allowed collection, patch body moving it to a
denied collection: 403 and no forwarding. -/
theorem handle_update_patch_spec_witness :
    collectionAllowed
        (Json.obj [("collection", Json.str "allowed"),
          ("properties", Json.obj [("name", Json.str "old")])]) = true ∧
    collectionAllowed
        (Json.obj (deepMerge
          [("collection", Json.str "allowed"),
            ("properties", Json.obj [("name", Json.str "old")])]
          [("collection", Json.str "denied")])) = false ∧
    handle_update collectionAllowed "PATCH"
        (FetchOutcome.found
          [("collection", Json.str "allowed"),
            ("properties", Json.obj [("name", Json.str "old")])])
        [("collection", Json.str "denied")] =
      TxnResponse.reject 403 "ForbiddenError"
        "Updated resource does not match access filter." := by
  have h1 : collectionAllowed
      (Json.obj [("collection", Json.str "allowed"),
        ("properties", Json.obj [("name", Json.str "old")])]) = true := by
    simp [collectionAllowed, getd, List.find?]
  have hd : deepMerge
      [("collection", Json.str "allowed"),
        ("properties", Json.obj [("name", Json.str "old")])]
      [("collection", Json.str "denied")]
      = [("collection", Json.str "denied"),
          ("properties", Json.obj [("name", Json.str "old")])] := by
    simp only [deepMerge, deepMergeVal]
    rfl
  have h2 : collectionAllowed
      (Json.obj (deepMerge
        [("collection", Json.str "allowed"),
          ("properties", Json.obj [("name", Json.str "old")])]
        [("collection", Json.str "denied")])) = false := by
    rw [hd]
    simp [collectionAllowed, getd, List.find?]
  exact ⟨h1, h2,
    (handle_update_patch_spec collectionAllowed
        [("collection", Json.str "denied")]).2.2.2.1
      [("collection", Json.str "allowed"),
        ("properties", Json.obj [("name", Json.str "old")])] h1 h2⟩

/-- C4: a GET request on a single-item path with an attached filter is
routed to the response-body validator, which rewrites an unparseable
upstream body to 502 and a filter-rejected body to 404 (both with body
`message: Not found`) and forwards a matching body with the upstream
status. -/
theorem apply_cql2_item_response_validation (filterMatches : Json → Bool)
    (path : String) (upstreamStatus : Nat) :
    (reMatch item_modify_path path = true →
      apply_cql2_route "GET" path true = Cql2Route.responseValidation) ∧
    (cql2_response_validate filterMatches upstreamStatus none =
      ValidatorOutcome.rewritten 502 (messageBody "Not found")) ∧
    (∀ body_json : Json, filterMatches body_json = false →
      cql2_response_validate filterMatches upstreamStatus (some body_json) =
        ValidatorOutcome.rewritten 404 (messageBody "Not found")) ∧
    (∀ body_json : Json, filterMatches body_json = true →
      cql2_response_validate filterMatches upstreamStatus (some body_json) =
        ValidatorOutcome.forwarded upstreamStatus body_json) := by
  refine ⟨?_, rfl, ?_, ?_⟩
  · intro hpath
    simp [apply_cql2_route, hpath]
  · intro body_json hmiss
    simp [cql2_response_validate, hmiss]
  · intro body_json hhit
    simp [cql2_response_validate, hhit]

/-- C4 witness: concrete single-item request under the
`collection = 'allowed'` filter. -/
theorem apply_cql2_item_response_validation_witness :
    reMatch item_modify_path "/collections/c1/items/i1" = true ∧
    apply_cql2_route "GET" "/collections/c1/items/i1" true =
      Cql2Route.responseValidation ∧
    cql2_response_validate collectionAllowed 200 none =
      ValidatorOutcome.rewritten 502 (messageBody "Not found") ∧
    cql2_response_validate collectionAllowed 200
        (some (Json.obj [("collection", Json.str "denied")])) =
      ValidatorOutcome.rewritten 404 (messageBody "Not found") ∧
    cql2_response_validate collectionAllowed 200
        (some (Json.obj [("collection", Json.str "allowed")])) =
      ValidatorOutcome.forwarded 200
        (Json.obj [("collection", Json.str "allowed")]) :=
  ⟨by decide,
   (apply_cql2_item_response_validation collectionAllowed
       "/collections/c1/items/i1" 200).1 (by decide),
   (apply_cql2_item_response_validation collectionAllowed
       "/collections/c1/items/i1" 200).2.1,
   (apply_cql2_item_response_validation collectionAllowed
       "/collections/c1/items/i1" 200).2.2.1
     (Json.obj [("collection", Json.str "denied")]) (by decide),
   (apply_cql2_item_response_validation collectionAllowed
       "/collections/c1/items/i1" 200).2.2.2
     (Json.obj [("collection", Json.str "allowed")]) (by decide)⟩

theorem lookupClaim_cons (a v : String) (d : List (String × String))
    (k : String) :
    lookupClaim ((a, v) :: d) k = if a == k then some v else lookupClaim d k := by
  simp only [lookupClaim, List.find?]
  cases h : a == k <;> simp [h]

theorem getd_map_str (k : String) :
    ∀ d : List (String × String),
      getd (d.map (fun kv => (kv.1, Json.str kv.2))) k =
        (lookupClaim d k).map Json.str
  | [] => rfl
  | (a, v) :: d => by
    simp only [List.map_cons, getd_cons, lookupClaim_cons]
    cases h : a == k with
    | true => rw [if_pos rfl, if_pos rfl]; rfl
    | false =>
      rw [if_neg Bool.false_ne_true, if_neg Bool.false_ne_true]
      exact getd_map_str k d

theorem lookupClaim_mem {d : List (String × String)} {k v : String}
    (h : lookupClaim d k = some v) : (k, v) ∈ d := by
  unfold lookupClaim at h
  cases hf : d.find? (fun kv => kv.1 == k) with
  | none => rw [hf] at h; simp at h
  | some kv =>
    rw [hf] at h
    simp only [Option.some.injEq] at h
    have hm := List.mem_of_find?_eq_some hf
    have hp := List.find?_some hf
    obtain ⟨k1, v1⟩ := kv
    have hk1 : k1 = k := by simpa using hp
    have hv1 : v1 = v := h
    rw [← hk1, ← hv1]
    exact hm

theorem mem_qsFirstDict_aux (x : String × String)
    (f : List (String × String) → String × String → List (String × String))
    (hf : ∀ acc kv, f acc kv = acc ∨ f acc kv = acc ++ [kv]) :
    ∀ (pairs acc : List (String × String)),
      x ∈ pairs.foldl f acc → x ∈ acc ∨ x ∈ pairs
  | [], acc, h => Or.inl h
  | p :: ps, acc, h => by
    rcases mem_qsFirstDict_aux x f hf ps (f acc p) h with h1 | h2
    · rcases hf acc p with he | he <;> rw [he] at h1
      · exact Or.inl h1
      · rcases List.mem_append.mp h1 with h3 | h3
        · exact Or.inl h3
        · exact Or.inr (by simp at h3; simp [h3])
    · exact Or.inr (List.mem_cons_of_mem p h2)

theorem mem_of_mem_qsFirstDict {pairs : List (String × String)}
    {x : String × String} (h : x ∈ qsFirstDict pairs) : x ∈ pairs := by
  unfold qsFirstDict at h
  have := mem_qsFirstDict_aux x _
    (fun acc kv => by
      by_cases hc : acc.any (fun kv2 => kv2.1 == kv.1)
      · exact Or.inl (by simp [hc])
      · exact Or.inr (by simp [hc]))
    pairs [] h
  simpa using this

theorem parseQsl_val_ne_empty {qs k v} (h : (k, v) ∈ parseQsl qs) : v ≠ "" := by
  unfold parseQsl at h
  rcases List.mem_filterMap.mp h with ⟨part, _, hsome⟩
  cases hb : breakAtChar '=' part.data with
  | none => rw [hb] at hsome; simp at hsome
  | some p =>
    obtain ⟨nm, vl⟩ := p
    rw [hb] at hsome
    simp only [] at hsome
    cases hvl : vl with
    | nil => rw [hvl] at hsome; simp at hsome
    | cons c cs =>
      rw [hvl] at hsome
      rw [if_neg (by simp)] at hsome
      simp only [Option.some.injEq, Prod.mk.injEq] at hsome
      intro habs
      have hv := hsome.2
      rw [habs] at hv
      have : ("" : String).data = (plusToSpace (String.mk (c :: cs))).data := by
        rw [hv]
      simp [plusToSpace] at this

theorem lookup_qsFirstDict_ne_empty {qs k v}
    (h : lookupClaim (qsFirstDict (parseQsl qs)) k = some v) : v ≠ "" :=
  parseQsl_val_ne_empty (mem_of_mem_qsFirstDict (lookupClaim_mem h))

theorem append_body_filter_lang (filter : Cql2Expr) (body : JDict) :
    getd (append_body_filter body filter none) "filter-lang" =
      some ((getd body "filter-lang").getD (Json.str "cql2-json")) := by
  simp only [append_body_filter]
  rw [getd_setd_same]

theorem append_body_filter_lang_some (filter : Cql2Expr) (body : JDict)
    (lang : String) (h : lang ≠ "") :
    getd (append_body_filter body filter (some lang)) "filter-lang" =
      some (Json.str lang) := by
  simp only [append_body_filter]
  rw [getd_setd_same, if_neg (by simpa using h)]

theorem append_body_filter_filter (filter : Cql2Expr) (body : JDict)
    (filter_lang : Option String) :
    getd (append_body_filter body filter filter_lang) "filter" =
      some (serializeFilter
        (match filter_lang with
         | some l =>
             if l == "" then (getd body "filter-lang").getD (Json.str "cql2-json")
             else Json.str l
         | none => (getd body "filter-lang").getD (Json.str "cql2-json"))
        (match getd body "filter" with
         | some cf =>
             if cf.truthy then Cql2Expr.andE filter (Cql2Expr.fromVal cf)
             else filter
         | none => filter)) := by
  simp only [append_body_filter]
  rw [getd_setd_other _ _ _ _ (by decide), getd_setd_same]
  rfl

/-- C5: filter insertion.  For a querystring, `append_qs_filter` emits the
serialisation of the parsed querystring dict with the filter inserted,
AND-combined with a pre-existing `filter` parameter, under a `filter-lang`
equal to the querystring's pre-existing value or `cql2-text`; for a JSON
body, `append_body_filter` inserts the filter into the `filter` key,
AND-combined with a truthy existing filter, with `filter-lang` defaulting
to `cql2-json` when the body declares none. -/
theorem append_filters_spec (filter : Cql2Expr) :
    (∀ qs : String,
      append_qs_filter qs filter none =
        dict_to_query_string
          (append_body_filter
            ((qsFirstDict (parseQsl qs)).map (fun kv => (kv.1, Json.str kv.2)))
            filter
            (some ((lookupClaim (qsFirstDict (parseQsl qs)) "filter-lang").getD
              "cql2-text"))) ∧
      getd
          (append_body_filter
            ((qsFirstDict (parseQsl qs)).map (fun kv => (kv.1, Json.str kv.2)))
            filter
            (some ((lookupClaim (qsFirstDict (parseQsl qs)) "filter-lang").getD
              "cql2-text")))
          "filter-lang" =
        some (Json.str
          ((lookupClaim (qsFirstDict (parseQsl qs)) "filter-lang").getD
            "cql2-text")) ∧
      (∀ f0 : String,
        lookupClaim (qsFirstDict (parseQsl qs)) "filter" = some f0 →
        getd
            (append_body_filter
              ((qsFirstDict (parseQsl qs)).map (fun kv => (kv.1, Json.str kv.2)))
              filter
              (some ((lookupClaim (qsFirstDict (parseQsl qs)) "filter-lang").getD
                "cql2-text")))
            "filter" =
          some (serializeFilter
            (Json.str
              ((lookupClaim (qsFirstDict (parseQsl qs)) "filter-lang").getD
                "cql2-text"))
            (Cql2Expr.andE filter (Cql2Expr.fromVal (Json.str f0)))))) ∧
    (∀ body : JDict,
      getd (append_body_filter body filter none) "filter-lang" =
        some ((getd body "filter-lang").getD (Json.str "cql2-json")) ∧
      (∀ cf : Json, getd body "filter" = some cf → cf.truthy = true →
        getd (append_body_filter body filter none) "filter" =
          some (serializeFilter
            ((getd body "filter-lang").getD (Json.str "cql2-json"))
            (Cql2Expr.andE filter (Cql2Expr.fromVal cf)))) ∧
      (getd body "filter" = none →
        getd (append_body_filter body filter none) "filter" =
          some (serializeFilter
            ((getd body "filter-lang").getD (Json.str "cql2-json")) filter))) := by
  constructor
  · intro qs
    refine ⟨rfl, ?_, ?_⟩
    · have hne : ((lookupClaim (qsFirstDict (parseQsl qs)) "filter-lang").getD
          "cql2-text") ≠ "" := by
        cases hcase : lookupClaim (qsFirstDict (parseQsl qs)) "filter-lang" with
        | none => simp
        | some l =>
          simp only [Option.getD_some]
          exact lookup_qsFirstDict_ne_empty hcase
      exact append_body_filter_lang_some filter _ _ hne
    · intro f0 hf0
      have hne0 : f0 ≠ "" := lookup_qsFirstDict_ne_empty hf0
      have hlne : ((lookupClaim (qsFirstDict (parseQsl qs))
          "filter-lang").getD "cql2-text") ≠ "" := by
        cases hcase : lookupClaim (qsFirstDict (parseQsl qs)) "filter-lang" with
        | none => simp
        | some l =>
          simp only [Option.getD_some]
          exact lookup_qsFirstDict_ne_empty hcase
      have htr : (Json.str f0).truthy = true := by
        simp [Json.truthy, hne0]
      rw [append_body_filter_filter]
      simp only [getd_map_str, hf0]
      rw [if_neg (by simpa using hlne)]
      simp [htr]
  · intro body
    refine ⟨append_body_filter_lang filter body, ?_, ?_⟩
    · intro cf hcf htr
      rw [append_body_filter_filter, hcf]
      simp [htr]
    · intro hnone
      rw [append_body_filter_filter, hnone]

/-- C5 witness: a querystring carrying a filter and language, and a body
with and without an existing filter. -/
theorem append_filters_spec_witness :
    getd
        (append_body_filter
          ((qsFirstDict (parseQsl "a=1&filter=x&filter-lang=cql2-text")).map
            (fun kv => (kv.1, Json.str kv.2)))
          (Cql2Expr.fromVal (Json.str "c = 'u'"))
          (some ((lookupClaim
            (qsFirstDict (parseQsl "a=1&filter=x&filter-lang=cql2-text"))
            "filter-lang").getD "cql2-text")))
        "filter" =
      some (serializeFilter (Json.str "cql2-text")
        (Cql2Expr.andE (Cql2Expr.fromVal (Json.str "c = 'u'"))
          (Cql2Expr.fromVal (Json.str "x")))) ∧
    getd
        (append_body_filter [("q", Json.str "v")]
          (Cql2Expr.fromVal (Json.str "c = 'u'")) none)
        "filter-lang" = some (Json.str "cql2-json") := by
  constructor
  · have h := (((append_filters_spec
      (Cql2Expr.fromVal (Json.str "c = 'u'"))).1
        "a=1&filter=x&filter-lang=cql2-text").2.2 "x" (by decide))
    rw [(by decide : (lookupClaim
        (qsFirstDict (parseQsl "a=1&filter=x&filter-lang=cql2-text"))
        "filter-lang").getD "cql2-text" = "cql2-text")] at h
    exact h
  · have h := ((append_filters_spec
      (Cql2Expr.fromVal (Json.str "c = 'u'"))).2 [("q", Json.str "v")]).1
    rw [show getd ([("q", Json.str "v")] : JDict) "filter-lang" = none
      from rfl] at h
    exact h

theorem hasKey_setd (d : JDict) (k : String) (v : Json) (k' : String) :
    hasKey (setd d k v) k' = (hasKey d k' || k == k') := by
  by_cases h : k = k'
  · subst h
    rw [hasKey_eq_isSome, getd_setd_same]
    simp
  · rw [hasKey_eq_isSome, getd_setd_other d k k' v h, ← hasKey_eq_isSome]
    have hb : (k == k') = false := by simp [h]
    simp [hb]

/-- C10: `append_body_filter` only writes the `filter` and `filter-lang`
keys: every other key keeps exactly the input's value, and every key of
the result comes from the input or is one of those two.  (The source
builds a fresh dict by `{**body, ...}`; the input dict itself is never
written to, which the purely functional embedding reflects.) -/
theorem append_body_filter_frame (body : JDict) (filter : Cql2Expr)
    (filter_lang : Option String) :
    (∀ k : String, k ≠ "filter" → k ≠ "filter-lang" →
      getd (append_body_filter body filter filter_lang) k = getd body k) ∧
    (∀ k : String,
      hasKey (append_body_filter body filter filter_lang) k = true →
      hasKey body k = true ∨ k = "filter" ∨ k = "filter-lang") := by
  constructor
  · intro k h1 h2
    simp only [append_body_filter]
    rw [getd_setd_other _ _ _ _ (Ne.symm h2), getd_setd_other _ _ _ _ (Ne.symm h1)]
  · intro k h
    simp only [append_body_filter] at h
    rw [hasKey_setd, hasKey_setd] at h
    rcases Bool.or_eq_true_iff.mp h with h' | h'
    · rcases Bool.or_eq_true_iff.mp h' with h'' | h''
      · exact Or.inl h''
      · refine Or.inr (Or.inl ?_)
        have h3 : ("filter" : String) = k := by simpa using h''
        exact h3.symm
    · refine Or.inr (Or.inr ?_)
      have h3 : ("filter-lang" : String) = k := by simpa using h'
      exact h3.symm

/-- C10 witness: an unrelated key survives unchanged. -/
theorem append_body_filter_frame_witness :
    getd
        (append_body_filter [("limit", Json.num 10)]
          (Cql2Expr.fromVal (Json.str "c = 'u'")) none) "limit" =
      getd [("limit", Json.num 10)] "limit" :=
  (append_body_filter_frame [("limit", Json.num 10)]
      (Cql2Expr.fromVal (Json.str "c = 'u'")) none).1
    "limit" (by decide) (by decide)

theorem headersGet_cons (a bv : String) (hs : List (String × String))
    (k : String) :
    headersGet ((a, bv) :: hs) k =
      if caseFold a == caseFold k then some bv else headersGet hs k := by
  simp only [headersGet, List.find?]
  cases h : caseFold a == caseFold k <;> simp [h]

theorem headersGet_setHeaderGo (k v : String) (hk : caseFold k = k) :
    ∀ hs : List (String × String), (∀ kv ∈ hs, caseFold kv.1 = kv.1) →
      headersGet (setHeaderGo k v hs) k = some v
  | [], _ => by
    simp [setHeaderGo, headersGet, List.find?, hk]
  | kv :: hs, hlow => by
    obtain ⟨a, bv⟩ := kv
    have h1 : caseFold a = a := hlow (a, bv) (List.mem_cons_self _ hs)
    simp only [setHeaderGo]
    cases hc : a == k with
    | true =>
      rw [if_pos rfl, headersGet_cons, if_pos (by rw [hk]; exact beq_self_eq_true k)]
    | false =>
      rw [if_neg Bool.false_ne_true, headersGet_cons,
        if_neg (by rw [h1, hk, hc]; exact Bool.false_ne_true)]
      exact headersGet_setHeaderGo k v hk hs
        (fun kv2 hm => hlow kv2 (List.mem_cons_of_mem _ hm))

theorem jsonMutatorFinish_emitted (hOpt : Option EncodingHandler)
    (parseJson : ByteStr → Option Json) (transform : Json → Json)
    (headers0 : List (String × String)) (bodyD : ByteStr)
    (hlow : ∀ kv ∈ headers0, caseFold kv.1 = kv.1)
    (hs : List (String × String)) (bd : ByteStr)
    (hrun : jsonMutatorFinish hOpt parseJson transform headers0 bodyD =
      MutatorOutcome.emitted hs bd) :
    headersGet hs "content-length" = some (toString bd.length) ∧
    ∃ data, parseJson bodyD = some data ∧
      bd = (match hOpt with
            | some h => h.compress (strBytes (jsonDumps (transform data)))
            | none => strBytes (jsonDumps (transform data))) := by
  simp only [jsonMutatorFinish] at hrun
  split at hrun
  · exact absurd hrun (by simp)
  · rename_i data hp
    injection hrun with h1 h2
    subst h1
    subst h2
    constructor
    · rw [setHeader, (by decide : caseFold "content-length" = "content-length")]
      exact headersGet_setHeaderGo "content-length" _ (by decide) headers0 hlow
    · exact ⟨data, hp, by cases hOpt <;> rfl⟩

/-- C7: every response the streaming JSON mutator emits carries a
`content-length` equal to the byte length of the emitted body, and when
the upstream response declared a `Content-Encoding` handled by the table
(`gzip`, `deflate`, `br`), the emitted body is that handler's compression
of the re-serialised transformed JSON. -/
theorem json_mutator_emits (g d b : EncodingHandler)
    (parseJson : ByteStr → Option Json) (transform : Json → Json)
    (headers0 : List (String × String)) (chunks : List ByteStr)
    (shouldTransform : Bool)
    (hlow : ∀ kv ∈ headers0, caseFold kv.1 = kv.1)
    (hs : List (String × String)) (bd : ByteStr)
    (hrun : json_response_middleware shouldTransform (encodingHandlers g d b)
      parseJson transform headers0 chunks = MutatorOutcome.emitted hs bd) :
    headersGet hs "content-length" = some (toString bd.length) ∧
    (∀ (enc : String) (h : EncodingHandler) (data : Json),
      headersGet headers0 "content-encoding" = some enc →
      encodingHandlers g d b (caseFold enc) = some h →
      parseJson (h.decompress chunks.flatten) = some data →
      bd = h.compress (strBytes (jsonDumps (transform data)))) := by
  cases shouldTransform with
  | false => simp [json_response_middleware] at hrun
  | true =>
    simp only [json_response_middleware, Bool.not_true, Bool.false_eq_true,
      if_false] at hrun
    split at hrun
    · rename_i hcond
      obtain ⟨hlen, data, hp, hbd⟩ := jsonMutatorFinish_emitted none parseJson
        transform headers0 chunks.flatten hlow hs bd hrun
      refine ⟨hlen, ?_⟩
      intro enc h data' hge hh hp'
      rw [hge] at hcond
      simp only [Option.getD_some] at hcond
      have hce : caseFold enc = "" := by simpa using hcond
      rw [hce] at hh
      rw [(rfl : encodingHandlers g d b "" = none)] at hh
      exact Option.noConfusion hh
    · rename_i hcond
      split at hrun
      · exact absurd hrun (by simp)
      · rename_i handler hhard
        obtain ⟨hlen, data, hp, hbd⟩ := jsonMutatorFinish_emitted
          (some handler) parseJson transform headers0
          (handler.decompress chunks.flatten) hlow hs bd hrun
        refine ⟨hlen, ?_⟩
        intro enc h data' hge hh hp'
        rw [hge] at hhard
        simp only [Option.getD_some] at hhard
        have hsome : some h = some handler := hh.symm.trans hhard
        injection hsome with hhh
        subst hhh
        have hdd : some data = some data' := hp.symm.trans hp'
        injection hdd with hdd'
        subst hdd'
        exact hbd

/-- C7 witness: a gzip-encoded upstream response through a concrete codec
and parser. -/
theorem json_mutator_emits_witness :
    json_response_middleware true
        (encodingHandlers codecFixture codecFixture codecFixture)
        parseNullFixture (fun j => j) [("content-encoding", "gzip")]
        [[1], [2]] =
      MutatorOutcome.emitted
        [("content-encoding", "gzip"), ("content-length", "5")]
        [0, 110, 117, 108, 108] ∧
    headersGet [("content-encoding", "gzip"), ("content-length", "5")]
        "content-length" =
      some (toString ([0, 110, 117, 108, 108] : ByteStr).length) ∧
    ([0, 110, 117, 108, 108] : ByteStr) =
      codecFixture.compress (strBytes (jsonDumps Json.null)) := by
  have hdump : jsonDumps Json.null = "null" := by simp [jsonDumps]
  have hrun : json_response_middleware true
      (encodingHandlers codecFixture codecFixture codecFixture)
      parseNullFixture (fun j => j) [("content-encoding", "gzip")]
      [[1], [2]] =
    MutatorOutcome.emitted
      [("content-encoding", "gzip"), ("content-length", "5")]
      [0, 110, 117, 108, 108] := by
    simp only [json_response_middleware, jsonMutatorFinish, parseNullFixture,
      hdump]
    decide
  have happ := json_mutator_emits codecFixture codecFixture codecFixture
    parseNullFixture (fun j => j) [("content-encoding", "gzip")] [[1], [2]]
    true (by decide) _ _ hrun
  exact ⟨hrun, happ.1,
    happ.2 "gzip" codecFixture Json.null (by decide) rfl rfl⟩

/-- C8 (counterexample): with the client base `http://proxy.example.com/`,
upstream `http://upstream.example.com` and root path `/proxy` all held
constant, one rewrite maps the upstream link to
`/proxy/collections`, but a second application prepends the root path
again, so `rewrite (rewrite doc) ≠ rewrite doc`. -/
theorem rewriteDoc_not_idempotent :
    firstLinkHrefStr
        (rewriteDoc (urlparseModel "http://proxy/")
          (urlparseModel "http://up") (some "/r")
          (Json.obj [("links", Json.arr [Json.obj
            [("href", Json.str "http://up/c")]])])) =
      some "http://proxy/r/c" ∧
    firstLinkHrefStr
        (rewriteDoc (urlparseModel "http://proxy/")
          (urlparseModel "http://up") (some "/r")
          (rewriteDoc (urlparseModel "http://proxy/")
            (urlparseModel "http://up") (some "/r")
            (Json.obj [("links", Json.arr [Json.obj
              [("href", Json.str "http://up/c")]])]))) =
      some "http://proxy/r/r/c" := by
  constructor <;> decide

/- char-level lemmas -/

theorem char_toNat_ofNat_valid {n : Nat} (h : n < 55296) :
    (Char.ofNat n).toNat = n := by
  unfold Char.ofNat
  rw [dif_pos (Or.inl h)]
  exact rfl

theorem char_eq_of_toNat_eq {a b : Char} (h : a.toNat = b.toNat) : a = b := by
  apply Char.eq_of_val_eq
  apply UInt32.eq_of_toBitVec_eq
  exact BitVec.eq_of_toNat_eq h

theorem toLower_toNat (c : Char) :
    c.toLower.toNat =
      if 65 ≤ c.toNat ∧ c.toNat ≤ 90 then c.toNat + 32 else c.toNat := by
  unfold Char.toLower
  by_cases h : c.toNat ≥ 65 ∧ c.toNat ≤ 90
  · rw [if_pos h, if_pos ⟨h.1, h.2⟩, char_toNat_ofNat_valid (by omega)]
  · rw [if_neg h, if_neg h]

theorem toLower_idem (c : Char) : c.toLower.toLower = c.toLower := by
  apply char_eq_of_toNat_eq
  rw [toLower_toNat, toLower_toNat]
  by_cases h : 65 ≤ c.toNat ∧ c.toNat ≤ 90
  · rw [if_pos h, if_neg (by omega)]
  · rw [if_neg h, if_neg h]

theorem caseFold_idem (s : String) : caseFold (caseFold s) = caseFold s := by
  simp only [caseFold, List.map_map]
  congr 1
  apply List.map_congr_left
  intro c _
  exact toLower_idem c

theorem isLower_iff (c : Char) :
    c.isLower = true ↔ (97 ≤ c.toNat ∧ c.toNat ≤ 122) := by
  unfold Char.isLower
  rw [Bool.and_eq_true, decide_eq_true_eq, decide_eq_true_eq]
  exact Iff.rfl

theorem isUpper_iff (c : Char) :
    c.isUpper = true ↔ (65 ≤ c.toNat ∧ c.toNat ≤ 90) := by
  unfold Char.isUpper
  rw [Bool.and_eq_true, decide_eq_true_eq, decide_eq_true_eq]
  exact Iff.rfl

theorem toLower_eq_self {c : Char} (h : ¬(65 ≤ c.toNat ∧ c.toNat ≤ 90)) :
    c.toLower = c := by
  apply char_eq_of_toNat_eq
  rw [toLower_toNat, if_neg h]

theorem isAlpha_toLower {c : Char} (h : c.isAlpha = true) :
    c.toLower.isAlpha = true := by
  by_cases hr : 65 ≤ c.toNat ∧ c.toNat ≤ 90
  · have : c.toLower.isLower = true := by
      rw [isLower_iff, toLower_toNat, if_pos hr]
      omega
    simp [Char.isAlpha, this]
  · rw [toLower_eq_self hr]
    exact h

theorem isSchemeChar_toLower {c : Char} (h : isSchemeChar c = true) :
    isSchemeChar c.toLower = true := by
  by_cases hr : 65 ≤ c.toNat ∧ c.toNat ≤ 90
  · have : c.toLower.isLower = true := by
      rw [isLower_iff, toLower_toNat, if_pos hr]
      omega
    simp [isSchemeChar, Char.isAlpha, this]
  · rw [toLower_eq_self hr]
    exact h

/- breakAtChar and takeUntilDelims facts -/

theorem breakAtChar_not_mem {c : Char} :
    ∀ {l : List Char}, c ∉ l → breakAtChar c l = none
  | [], _ => rfl
  | x :: l, h => by
    simp only [List.mem_cons, not_or] at h
    simp only [breakAtChar]
    rw [if_neg (by simp [Ne.symm h.1]), breakAtChar_not_mem h.2]
    rfl

theorem breakAtChar_boundary {c : Char} :
    ∀ {xs : List Char} (ys : List Char), c ∉ xs →
      breakAtChar c (xs ++ c :: ys) = some (xs, ys)
  | [], ys, _ => by simp [breakAtChar]
  | x :: xs, ys, h => by
    simp only [List.mem_cons, not_or] at h
    simp only [List.cons_append, breakAtChar, List.append_eq]
    rw [if_neg (by simp [Ne.symm h.1]), breakAtChar_boundary ys h.2]
    rfl

theorem takeUntil_boundary {ds : List Char} :
    ∀ {xs : List Char} (ys : List Char), (∀ x ∈ xs, x ∉ ds) →
      (ys = [] ∨ ∃ y ys', ys = y :: ys' ∧ y ∈ ds) →
      takeUntilDelims ds (xs ++ ys) = (xs, ys)
  | [], ys, _, hy => by
    rcases hy with rfl | ⟨y, ys', rfl, hmem⟩
    · rfl
    · simp only [List.nil_append, takeUntilDelims]
      rw [if_pos (by simpa using hmem)]
  | x :: xs, ys, hx, hy => by
    simp only [List.cons_append, takeUntilDelims, List.append_eq]
    rw [if_neg (by simpa using hx x (List.mem_cons_self x xs)),
      takeUntil_boundary ys (fun a ha => hx a (List.mem_cons_of_mem x ha)) hy]

/- parse/unparse roundtrip -/

theorem strData_append (a b : String) : (a ++ b).data = a.data ++ b.data := rfl

theorem strMk_data (s : String) : String.mk s.data = s := rfl

theorem splitScheme_slash (tl : List Char) :
    splitScheme ('/' :: tl) = ("", '/' :: tl) := by
  unfold splitScheme
  simp only [breakAtChar]
  rw [if_neg (by decide)]
  cases h : breakAtChar ':' tl with
  | none => rfl
  | some p =>
    obtain ⟨a, b⟩ := p
    simp [(by decide : ('/' : Char).isAlpha = false)]

theorem colon_not_mem_of_schemeChars {l : List Char}
    (h : l.all isSchemeChar = true) : (':' : Char) ∉ l := by
  intro hmem
  have := List.all_eq_true.mp h ':' hmem
  simp [isSchemeChar] at this

theorem splitScheme_valid (s : String) (rest : List Char)
    (hne : s.data ≠ []) (hval : validScheme s = true) :
    splitScheme (s.data ++ ':' :: rest) = (s, rest) := by
  unfold validScheme at hval
  cases hd : s.data with
  | nil => exact absurd hd hne
  | cons c0 cs =>
    rw [hd] at hval
    simp only [] at hval
    rw [← hd] at hval
    simp only [Bool.and_eq_true] at hval
    unfold splitScheme
    rw [breakAtChar_boundary rest (colon_not_mem_of_schemeChars (hd ▸ hval.1.2))]
    simp only []
    rw [if_pos (by
      rw [Bool.and_eq_true]
      exact ⟨hval.1.1, hd ▸ hval.1.2⟩)]
    rw [show (⟨c0 :: cs⟩ : String) = s from by rw [← hd]]
    rw [show caseFold s = s from by simpa using hval.2]

theorem normSlash_data (p : String) (hne : p ≠ "") :
    ∃ tl, (normSlash p).data = '/' :: tl ∧ ∀ c ∈ tl, c ∈ p.data := by
  unfold normSlash
  by_cases hs : strStartsWith p "/"
  · rw [if_neg (by simp [hs])]
    unfold strStartsWith at hs
    cases hd : p.data with
    | nil =>
      exfalso
      apply hne
      cases p with
      | mk l =>
        have hl : l = [] := hd
        exact congrArg String.mk hl
    | cons c tl =>
      rw [hd] at hs
      have hc : c = '/' := by
        have h1 : ("/" : String).data = ['/'] := rfl
        rw [h1] at hs
        simp [List.isPrefixOf] at hs
        exact hs.symm
      refine ⟨tl, ?_, ?_⟩
      · rw [hc]
      · intro x hx
        exact List.mem_cons_of_mem c hx
  · rw [if_pos (by simp [hne, hs])]
    exact ⟨p.data, rfl, fun c hc => hc⟩

theorem normSlash_empty : normSlash "" = "" := rfl

/- breakAtChar characterisation -/

theorem breakAtChar_eq_none {c : Char} :
    ∀ {l : List Char}, breakAtChar c l = none → c ∉ l
  | [], _ => by simp
  | x :: cs, h => by
    simp only [breakAtChar] at h
    by_cases hx : (x == c) = true
    · rw [if_pos hx] at h
      exact absurd h (by simp)
    · rw [if_neg hx] at h
      cases hbr : breakAtChar c cs with
      | none =>
        have hih := breakAtChar_eq_none hbr
        simp only [List.mem_cons, not_or]
        exact ⟨fun he => hx (by simp [he]), hih⟩
      | some p =>
        rw [hbr] at h
        exact absurd h (by simp)

theorem breakAtChar_eq_some {c : Char} :
    ∀ {l a b : List Char}, breakAtChar c l = some (a, b) →
      l = a ++ c :: b ∧ c ∉ a
  | [], a, b, h => by simp [breakAtChar] at h
  | x :: cs, a, b, h => by
    simp only [breakAtChar] at h
    by_cases hx : (x == c) = true
    · rw [if_pos hx] at h
      have hab : ([] : List Char) = a ∧ cs = b := by
        have := h
        simp only [Option.some.injEq, Prod.mk.injEq] at this
        exact this
      obtain ⟨ha, hb⟩ := hab
      subst ha
      subst hb
      refine ⟨?_, by simp⟩
      have hxc : x = c := by simpa using hx
      rw [hxc]
      rfl
    · rw [if_neg hx] at h
      cases hbr : breakAtChar c cs with
      | none =>
        rw [hbr] at h
        exact absurd h (by simp)
      | some p =>
        obtain ⟨a', b'⟩ := p
        rw [hbr] at h
        simp only [Option.map_some', Option.map_some, Option.some.injEq, Prod.mk.injEq] at h
        obtain ⟨ha, hb⟩ := h
        have hih := breakAtChar_eq_some hbr
        subst hb
        rw [← ha]
        refine ⟨by rw [hih.1]; rfl, ?_⟩
        simp only [List.mem_cons, not_or]
        exact ⟨fun he => hx (by simp [he]), hih.2⟩

/- validNetloc unpacking -/

theorem validNetloc_parts (n : String) (h : validNetloc n = true) :
    n ≠ "" ∧ ∀ x ∈ n.data, x ∉ (['/', '?', '#'] : List Char) := by
  unfold validNetloc at h
  simp only [Bool.and_eq_true, decide_eq_true_eq, List.all_eq_true] at h
  refine ⟨h.1, fun x hx hmem => ?_⟩
  have hc := h.2 x hx
  simp only [Bool.and_eq_true, Bool.not_eq_eq_eq_not, Bool.not_true,
    beq_eq_false_iff_ne, ne_eq] at hc
  simp only [List.mem_cons, List.not_mem_nil, or_false] at hmem
  rcases hmem with rfl | rfl | rfl
  · exact hc.1.1 rfl
  · exact hc.1.2 rfl
  · exact hc.2 rfl

theorem strData_ne_nil {s : String} (h : s ≠ "") : s.data ≠ [] := by
  intro hd
  apply h
  cases s with
  | mk l => exact congrArg String.mk hd

theorem not_mem_normSlash {c : Char} (p : String) (hc : c ≠ '/')
    (h : c ∉ p.data) : c ∉ (normSlash p).data := by
  by_cases hp : p = ""
  · subst hp
    rw [normSlash_empty]
    simp
  · obtain ⟨tl, htl, hsub⟩ := normSlash_data p hp
    rw [htl]
    intro hmem
    rcases List.mem_cons.mp hmem with rfl | hm
    · exact hc rfl
    · exact h (hsub c hm)

theorem normSlash_idem (p : String) : normSlash (normSlash p) = normSlash p := by
  by_cases hp : p = ""
  · subst hp
    rfl
  · obtain ⟨tl, htl, -⟩ := normSlash_data p hp
    have hsw : strStartsWith (normSlash p) "/" = true := by
      unfold strStartsWith
      rw [htl]
      simp [List.isPrefixOf]
    rw [normSlash]
    rw [if_neg (by simp [hsw])]

theorem str_ext {a b : String} (h : a.data = b.data) : a = b := by
  cases a
  cases b
  cases h
  rfl

/- the scheme splitScheme returns is itself valid -/

theorem validScheme_splitScheme (l : List Char) :
    validScheme (splitScheme l).1 = true := by
  unfold splitScheme
  cases hbr : breakAtChar ':' l with
  | none => exact (by decide : validScheme "" = true)
  | some p =>
    obtain ⟨before, after⟩ := p
    simp only []
    cases before with
    | nil => exact (by decide : validScheme "" = true)
    | cons c0 tl =>
      simp only []
      by_cases hc : (c0.isAlpha && (c0 :: tl).all isSchemeChar) = true
      · rw [if_pos hc]
        simp only [Bool.and_eq_true] at hc
        simp only []
        have hdata : (caseFold (String.mk (c0 :: tl))).data
            = Char.toLower c0 :: tl.map Char.toLower := rfl
        unfold validScheme
        rw [hdata]
        simp only []
        rw [Bool.and_eq_true, Bool.and_eq_true]
        refine ⟨⟨isAlpha_toLower hc.1, ?_⟩, ?_⟩
        · rw [List.all_eq_true]
          intro x hx
          rcases List.mem_cons.mp hx with rfl | hx2
          · exact isSchemeChar_toLower
              (List.all_eq_true.mp hc.2 c0 (List.mem_cons_self c0 tl))
          · obtain ⟨y, hy, rfl⟩ := List.mem_map.mp hx2
            exact isSchemeChar_toLower
              (List.all_eq_true.mp hc.2 y (List.mem_cons_of_mem c0 hy))
        · rw [caseFold_idem]
          exact beq_self_eq_true _
      · rw [if_neg hc]
        exact (by decide : validScheme "" = true)

theorem urlparseModel_scheme (u : String) :
    (urlparseModel u).scheme = (splitScheme u.data).1 := rfl

theorem validScheme_urlparse (u : String) :
    validScheme (urlparseModel u).scheme = true := by
  rw [urlparseModel_scheme]
  exact validScheme_splitScheme u.data

/- the character shape of an unparsed URL with a netloc -/

theorem urlunparse_data (s n pa q f : String) (hn : n ≠ "") :
    (urlunparseModel ⟨s, n, pa, q, f⟩).data =
      (if s = "" then [] else s.data ++ [':']) ++
        '/' :: '/' :: (n.data ++ ((normSlash pa).data ++
          (if q = "" then [] else '?' :: q.data) ++
          (if f = "" then [] else '#' :: f.data))) := by
  unfold urlunparseModel
  simp only []
  have hcond : (n ≠ "" || strStartsWith pa "//") = true := by simp [hn]
  rw [if_pos hcond]
  rw [show (if pa ≠ "" && !(strStartsWith pa "/") then "/" ++ pa else pa)
      = normSlash pa from rfl]
  by_cases hs : s = "" <;> by_cases hq : q = "" <;> by_cases hf : f = "" <;>
    simp [hs, hq, hf, strData_append, List.append_assoc,
      (show ("//" : String).data = ['/', '/'] from rfl),
      (show (":" : String).data = [':'] from rfl),
      (show ("?" : String).data = ['?'] from rfl),
      (show ("#" : String).data = ['#'] from rfl)]

/- parse (unparse p) recovers p up to the leading-slash normalisation of
the path -/

theorem urlparse_roundtrip (s n pa q f : String)
    (hsch : validScheme s = true)
    (hnl : validNetloc n = true)
    (hpq : '?' ∉ pa.data) (hpf : '#' ∉ pa.data)
    (hqf : '#' ∉ q.data) :
    urlparseModel (urlunparseModel ⟨s, n, pa, q, f⟩) =
      ⟨s, n, normSlash pa, q, f⟩ := by
  obtain ⟨hn, hnmem⟩ := validNetloc_parts n hnl
  have hq' : '?' ∉ (normSlash pa).data := not_mem_normSlash pa (by decide) hpq
  have hf' : '#' ∉ (normSlash pa).data := not_mem_normSlash pa (by decide) hpf
  have hpqL : '#' ∉ (normSlash pa).data ++ (if q = "" then [] else '?' :: q.data) := by
    intro hmem
    rcases List.mem_append.mp hmem with h | h
    · exact hf' h
    · by_cases hq : q = ""
      · rw [if_pos hq] at h
        simp at h
      · rw [if_neg hq] at h
        rcases List.mem_cons.mp h with h2 | h2
        · exact absurd h2 (by decide)
        · exact hqf h2
  have hhead : ((normSlash pa).data ++ (if q = "" then [] else '?' :: q.data) ++
      (if f = "" then [] else '#' :: f.data)) = [] ∨
      ∃ c t, ((normSlash pa).data ++ (if q = "" then [] else '?' :: q.data) ++
        (if f = "" then [] else '#' :: f.data)) = c :: t ∧
        c ∈ (['/', '?', '#'] : List Char) := by
    by_cases hpa : pa = ""
    · subst hpa
      rw [normSlash_empty]
      by_cases hq : q = ""
      · rw [if_pos hq]
        by_cases hf : f = ""
        · rw [if_pos hf]
          exact Or.inl rfl
        · rw [if_neg hf]
          exact Or.inr ⟨'#', f.data, by simp, by decide⟩
      · rw [if_neg hq]
        exact Or.inr ⟨'?', q.data ++ (if f = "" then [] else '#' :: f.data),
          by simp, by decide⟩
    · obtain ⟨tl, htl, -⟩ := normSlash_data pa hpa
      rw [htl]
      exact Or.inr ⟨'/', tl ++ (if q = "" then [] else '?' :: q.data) ++
        (if f = "" then [] else '#' :: f.data), by simp, by decide⟩
  unfold urlparseModel
  simp only []
  rw [urlunparse_data s n pa q f hn]
  by_cases hs : s = ""
  · rw [if_pos hs, List.nil_append, splitScheme_slash]
    simp only []
    rw [takeUntil_boundary _ hnmem hhead]
    simp only []
    by_cases hf : f = ""
    · rw [if_pos hf, List.append_nil, breakAtChar_not_mem hpqL]
      simp only []
      by_cases hq : q = ""
      · rw [if_pos hq, List.append_nil, breakAtChar_not_mem hq']
        simp only []
        subst hs hq hf
        rfl
      · rw [if_neg hq, breakAtChar_boundary q.data hq']
        simp only []
        subst hs hf
        rfl
    · rw [if_neg hf, breakAtChar_boundary f.data hpqL]
      simp only []
      by_cases hq : q = ""
      · rw [if_pos hq, List.append_nil, breakAtChar_not_mem hq']
        simp only []
        subst hs hq
        rfl
      · rw [if_neg hq, breakAtChar_boundary q.data hq']
        simp only []
        subst hs
        rfl
  · rw [if_neg hs, List.append_assoc, List.singleton_append,
      splitScheme_valid s _ (strData_ne_nil hs) hsch]
    simp only []
    rw [takeUntil_boundary _ hnmem hhead]
    simp only []
    by_cases hf : f = ""
    · rw [if_pos hf, List.append_nil, breakAtChar_not_mem hpqL]
      simp only []
      by_cases hq : q = ""
      · rw [if_pos hq, List.append_nil, breakAtChar_not_mem hq']
        simp only []
        subst hq hf
        rfl
      · rw [if_neg hq, breakAtChar_boundary q.data hq']
        simp only []
        subst hf
        rfl
    · rw [if_neg hf, breakAtChar_boundary f.data hpqL]
      simp only []
      by_cases hq : q = ""
      · rw [if_pos hq, List.append_nil, breakAtChar_not_mem hq']
        simp only []
        subst hq
        rfl
      · rw [if_neg hq, breakAtChar_boundary q.data hq']

/- urlparseModel output facts: the parsed path and query never contain
the delimiters that were consumed -/

theorem urlparseModel_path_no_q (u : String) :
    '?' ∉ (urlparseModel u).path.data := by
  unfold urlparseModel
  simp only []
  split
  · rename_i p heq
    obtain ⟨a, b⟩ := p
    exact (breakAtChar_eq_some heq).2
  · rename_i heq
    exact breakAtChar_eq_none heq

theorem urlparseModel_path_no_f (u : String) :
    '#' ∉ (urlparseModel u).path.data := by
  unfold urlparseModel
  simp only []
  split
  · rename_i p heq
    obtain ⟨a, b⟩ := p
    split at heq
    · rename_i p' heq2
      obtain ⟨a', b'⟩ := p'
      have h1 := breakAtChar_eq_some heq2
      have h2 : a' = a ++ '?' :: b := (breakAtChar_eq_some heq).1
      intro hmem
      have hmem' : '#' ∈ a := hmem
      exact h1.2 (by rw [h2]; exact List.mem_append_left _ hmem')
    · rename_i heq2
      have h1 := breakAtChar_eq_none heq2
      have h2 := (breakAtChar_eq_some heq).1
      intro hmem
      have hmem' : '#' ∈ a := hmem
      exact h1 ((congrArg (fun l => '#' ∈ l) h2).mpr
        (List.mem_append_left _ hmem'))
  · rename_i heq
    split
    · rename_i p' heq2
      obtain ⟨a', b'⟩ := p'
      exact (breakAtChar_eq_some heq2).2
    · rename_i heq2
      exact breakAtChar_eq_none heq2

theorem urlparseModel_query_no_f (u : String) :
    '#' ∉ (urlparseModel u).query.data := by
  unfold urlparseModel
  simp only []
  split
  · rename_i p heq
    obtain ⟨a, b⟩ := p
    split at heq
    · rename_i p' heq2
      obtain ⟨a', b'⟩ := p'
      have h1 := breakAtChar_eq_some heq2
      have h2 : a' = a ++ '?' :: b := (breakAtChar_eq_some heq).1
      intro hmem
      have hmem' : '#' ∈ b := hmem
      refine h1.2 ?_
      rw [h2]
      exact List.mem_append_right _ (List.mem_cons_of_mem '?' hmem')
    · rename_i heq2
      have h1 := breakAtChar_eq_none heq2
      have h2 := (breakAtChar_eq_some heq).1
      intro hmem
      have hmem' : '#' ∈ b := hmem
      exact h1 ((congrArg (fun l => '#' ∈ l) h2).mpr
        (List.mem_append_right _ (List.mem_cons_of_mem '?' hmem')))
  · simp

/- setd algebra -/

theorem setd_eq_of_hasKey {d : JDict} {k : String} (v : Json)
    (h : hasKey d k = true) :
    setd d k v = d.map (fun kv => if kv.1 == k then (k, v) else kv) := by
  unfold setd
  rw [if_pos h]

theorem setd_eq_of_not_hasKey {d : JDict} {k : String} (v : Json)
    (h : hasKey d k = false) :
    setd d k v = d ++ [(k, v)] := by
  unfold setd
  rw [h, if_neg Bool.false_ne_true]

theorem map_set_noop (d : JDict) (k : String) (w : Json)
    (h : hasKey d k = false) :
    d.map (fun kv => if kv.1 == k then (k, w) else kv) = d := by
  induction d with
  | nil => rfl
  | cons a d ih =>
    unfold hasKey at h
    simp only [List.any_cons, Bool.or_eq_false_iff] at h
    simp only [List.map_cons]
    rw [if_neg (by simp [h.1]), ih h.2]

theorem setd_setd_same (d : JDict) (k : String) (v w : Json) :
    setd (setd d k v) k w = setd d k w := by
  cases hh : hasKey d k with
  | true =>
    have h2 : hasKey (setd d k v) k = true := by
      rw [hasKey_setd]
      simp
    rw [setd_eq_of_hasKey w h2, setd_eq_of_hasKey v hh, setd_eq_of_hasKey w hh,
      List.map_map]
    apply List.map_congr_left
    intro kv _
    by_cases hk : (kv.1 == k) = true
    · simp [Function.comp, hk]
    · simp [Function.comp, hk]
  | false =>
    have h2 : hasKey (setd d k v) k = true := by
      rw [hasKey_setd]
      simp
    rw [setd_eq_of_hasKey w h2, setd_eq_of_not_hasKey v hh,
      setd_eq_of_not_hasKey w hh, List.map_append, map_set_noop d k w hh]
    simp

theorem setd_comm (d : JDict) (k₁ k₂ : String) (v₁ v₂ : Json)
    (hne : k₁ ≠ k₂) (h₁ : hasKey d k₁ = true) (h₂ : hasKey d k₂ = true) :
    setd (setd d k₂ v₂) k₁ v₁ = setd (setd d k₁ v₁) k₂ v₂ := by
  have h₁' : hasKey (setd d k₂ v₂) k₁ = true := by
    rw [hasKey_setd, h₁]
    simp
  have h₂' : hasKey (setd d k₁ v₁) k₂ = true := by
    rw [hasKey_setd, h₂]
    simp
  rw [setd_eq_of_hasKey v₁ h₁', setd_eq_of_hasKey v₂ h₂',
    setd_eq_of_hasKey v₂ h₂, setd_eq_of_hasKey v₁ h₁, List.map_map,
    List.map_map]
  apply List.map_congr_left
  intro kv _
  by_cases hk1 : (kv.1 == k₁) = true
  · have hk2 : (kv.1 == k₂) = false := by
      have h := beq_iff_eq.mp hk1
      rw [h]
      exact beq_eq_false_iff_ne.mpr hne
    simp only [Function.comp_apply]
    rw [if_neg (show ¬((kv.1 == k₂) = true) from by
        rw [hk2]; exact Bool.false_ne_true),
      if_pos hk1,
      if_neg (show ¬((((k₁, v₁) : String × Json).1 == k₂) = true) from by
        simp [hne])]
  · by_cases hk2 : (kv.1 == k₂) = true
    · simp only [Function.comp_apply]
      rw [if_pos hk2,
        if_neg (show ¬((((k₂, v₂) : String × Json).1 == k₁) = true) from by
          simp [Ne.symm hne]),
        if_neg hk1, if_pos hk2]
    · simp only [Function.comp_apply]
      rw [if_neg hk2, if_neg hk1, if_neg hk2]

/- updateKeyArr algebra -/

theorem updateKeyArr_eq_arr {d : JDict} {key : String} {xs : List Json}
    (h : getd d key = some (Json.arr xs)) (g : Json → Json) :
    updateKeyArr key g d = setd d key (Json.arr (xs.map g)) := by
  unfold updateKeyArr
  rw [h]

theorem updateKeyArr_not_arr {d : JDict} {key : String} (g : Json → Json)
    (h : ∀ xs, getd d key ≠ some (Json.arr xs)) :
    updateKeyArr key g d = d := by
  unfold updateKeyArr
  cases hgd : getd d key with
  | none => rfl
  | some v =>
    cases v with
    | arr xs => exact absurd hgd (h xs)
    | null => rfl
    | bool b => rfl
    | num n => rfl
    | str s => rfl
    | obj o => rfl

theorem updateKeyArr_cases (key : String) (g : Json → Json) (d : JDict) :
    (∃ xs, getd d key = some (Json.arr xs) ∧
      updateKeyArr key g d = setd d key (Json.arr (xs.map g))) ∨
    ((∀ xs, getd d key ≠ some (Json.arr xs)) ∧ updateKeyArr key g d = d) := by
  by_cases h : ∃ xs, getd d key = some (Json.arr xs)
  · obtain ⟨xs, hxs⟩ := h
    exact Or.inl ⟨xs, hxs, updateKeyArr_eq_arr hxs g⟩
  · push_neg at h
    exact Or.inr ⟨h, updateKeyArr_not_arr g h⟩

theorem updateKeyArr_idem (key : String) (g : Json → Json)
    (hg : ∀ x, g (g x) = g x) (d : JDict) :
    updateKeyArr key g (updateKeyArr key g d) = updateKeyArr key g d := by
  rcases updateKeyArr_cases key g d with ⟨xs, hgd, heq⟩ | ⟨-, heq⟩
  · rw [heq]
    rw [updateKeyArr_eq_arr (getd_setd_same d key (Json.arr (xs.map g))) g,
      setd_setd_same]
    have hmaps : (xs.map g).map g = xs.map g := by
      rw [List.map_map]
      exact List.map_congr_left (fun x _ => by
        simp only [Function.comp_apply]
        exact hg x)
    rw [hmaps]
  · rw [heq]
    exact heq

theorem updateKeyArr_comm (k₁ k₂ : String) (g₁ g₂ : Json → Json)
    (hne : k₁ ≠ k₂) (d : JDict) :
    updateKeyArr k₁ g₁ (updateKeyArr k₂ g₂ d) =
      updateKeyArr k₂ g₂ (updateKeyArr k₁ g₁ d) := by
  rcases updateKeyArr_cases k₁ g₁ d with ⟨xs₁, hg1, he1⟩ | ⟨hn1, he1⟩ <;>
    rcases updateKeyArr_cases k₂ g₂ d with ⟨xs₂, hg2, he2⟩ | ⟨hn2, he2⟩
  · rw [he2, he1]
    rw [updateKeyArr_eq_arr (show getd (setd d k₂ (Json.arr (xs₂.map g₂))) k₁
        = some (Json.arr xs₁) from by
      rw [getd_setd_other d k₂ k₁ _ (Ne.symm hne)]; exact hg1) g₁]
    rw [updateKeyArr_eq_arr (show getd (setd d k₁ (Json.arr (xs₁.map g₁))) k₂
        = some (Json.arr xs₂) from by
      rw [getd_setd_other d k₁ k₂ _ hne]; exact hg2) g₂]
    exact setd_comm d k₁ k₂ _ _ hne
      (by rw [hasKey_eq_isSome, hg1]; rfl)
      (by rw [hasKey_eq_isSome, hg2]; rfl)
  · rw [he2, he1]
    rw [updateKeyArr_not_arr g₂ (fun xs h => hn2 xs (by
      rw [getd_setd_other d k₁ k₂ _ hne] at h; exact h))]
  · rw [he1, he2]
    rw [updateKeyArr_not_arr g₁ (fun xs h => hn1 xs (by
      rw [getd_setd_other d k₂ k₁ _ (Ne.symm hne)] at h; exact h))]
  · rw [he2, he1, he2]

theorem onLinkObj_idem (f : JDict → JDict) (hf : ∀ l, f (f l) = f l)
    (x : Json) : onLinkObj f (onLinkObj f x) = onLinkObj f x := by
  cases x <;> simp [onLinkObj, hf]

theorem updateLinksIn_idem (f : JDict → JDict) (hf : ∀ l, f (f l) = f l)
    (d : JDict) : updateLinksIn f (updateLinksIn f d) = updateLinksIn f d :=
  updateKeyArr_idem "links" (onLinkObj f) (onLinkObj_idem f hf) d

/- update_link: branch characterisations -/

theorem update_link_nohref (ru uu : ParseResult) (rp : Option String)
    (link : JDict) (hh : ∀ s, getd link "href" ≠ some (Json.str s)) :
    update_link ru uu rp link = link := by
  unfold update_link
  cases hgd : getd link "href" with
  | none => rfl
  | some v =>
    cases v with
    | str s => exact absurd hgd (hh s)
    | null => rfl
    | bool b => rfl
    | num n => rfl
    | arr a => rfl
    | obj o => rfl

theorem update_link_skip (ru uu : ParseResult) (rp : Option String)
    (link : JDict) (href : String)
    (hh : getd link "href" = some (Json.str href))
    (hm : (netlocs_match (urlparseModel href).netloc (urlparseModel href).scheme
            ru.netloc ru.scheme ||
          netlocs_match (urlparseModel href).netloc (urlparseModel href).scheme
            uu.netloc uu.scheme) = false) :
    update_link ru uu rp link = link := by
  unfold update_link
  rw [hh]
  simp only []
  rw [hm]
  rfl

theorem strStartsWith_empty (pa : String) : strStartsWith pa "" = true := by
  unfold strStartsWith
  cases h : pa.data with
  | nil => rfl
  | cons c cs => rfl

theorem up_path_cond_false (uu : ParseResult)
    (hup : uu.path = "" ∨ uu.path = "/") (pa : String) :
    (uu.path ≠ "/" && !(strStartsWith pa uu.path)) = false := by
  rcases hup with h | h <;> rw [h]
  · rw [strStartsWith_empty]
    simp
  · simp

theorem strip_cond_empty (pa : String) :
    (("" : String) ≠ "/" && strStartsWith pa "") = true := by
  rw [strStartsWith_empty]
  rfl

theorem strip_cond_slash (pa : String) :
    (("/" : String) ≠ "/" && strStartsWith pa "/") = false := by
  simp

theorem update_link_str (ru uu : ParseResult) (rp : Option String)
    (link : JDict) (href : String) (s1 : String)
    (hh : getd link "href" = some (Json.str href))
    (hrp : rp = none ∨ rp = some "")
    (hup : uu.path = "" ∨ uu.path = "/")
    (hm : (netlocs_match (urlparseModel href).netloc (urlparseModel href).scheme
            ru.netloc ru.scheme ||
          netlocs_match (urlparseModel href).netloc (urlparseModel href).scheme
            uu.netloc uu.scheme) = true)
    (hs1 : s1 = if netlocs_match (urlparseModel href).netloc
            (urlparseModel href).scheme uu.netloc uu.scheme
          then ru.scheme else (urlparseModel href).scheme) :
    update_link ru uu rp link =
      if urlunparseModel ⟨s1, ru.netloc, (urlparseModel href).path,
          (urlparseModel href).query, (urlparseModel href).fragment⟩ == href
      then link
      else setd link "href" (Json.str (urlunparseModel ⟨s1, ru.netloc,
          (urlparseModel href).path, (urlparseModel href).query,
          (urlparseModel href).fragment⟩)) := by
  unfold update_link
  rw [hh]
  simp only []
  rw [hm, Bool.not_true, if_neg Bool.false_ne_true]
  rw [up_path_cond_false uu hup ((urlparseModel href).path),
    if_neg Bool.false_ne_true]
  by_cases hlmu : (netlocs_match (urlparseModel href).netloc
      (urlparseModel href).scheme uu.netloc uu.scheme) = true
  · rw [if_pos hlmu] at hs1
    subst hs1
    rw [if_pos hlmu]
    rcases hup with hup1 | hup1 <;> rw [hup1]
    · rw [strip_cond_empty, if_pos rfl,
        show ("" : String).data.length = 0 from rfl, List.drop_zero]
      rcases hrp with hrp1 | hrp1 <;> rw [hrp1] <;> simp only []
      rfl
    · rw [strip_cond_slash, if_neg Bool.false_ne_true]
      rcases hrp with hrp1 | hrp1 <;> rw [hrp1] <;> simp only []
      rfl
  · have hlmu' : (netlocs_match (urlparseModel href).netloc
        (urlparseModel href).scheme uu.netloc uu.scheme) = false := by
      simpa using hlmu
    rw [hlmu', if_neg Bool.false_ne_true] at hs1
    subst hs1
    rw [hlmu', if_neg Bool.false_ne_true]
    rcases hup with hup1 | hup1 <;> rw [hup1]
    · rw [strip_cond_empty, if_pos rfl,
        show ("" : String).data.length = 0 from rfl, List.drop_zero]
      rcases hrp with hrp1 | hrp1 <;> rw [hrp1] <;> simp only []
      rfl
    · rw [strip_cond_slash, if_neg Bool.false_ne_true]
      rcases hrp with hrp1 | hrp1 <;> rw [hrp1] <;> simp only []
      rfl

theorem netlocs_match_false_of_host (n1 s1 n2 s2 : String)
    (h : caseFold (extract_hostname n1) ≠ caseFold (extract_hostname n2)) :
    netlocs_match n1 s1 n2 s2 = false := by
  unfold netlocs_match
  rw [show (caseFold (extract_hostname n1) == caseFold (extract_hostname n2))
      = false from beq_eq_false_iff_ne.mpr h]
  rfl

theorem urlunparse_normSlash (s n pa q f : String) (hn : n ≠ "") :
    urlunparseModel ⟨s, n, normSlash pa, q, f⟩ =
      urlunparseModel ⟨s, n, pa, q, f⟩ := by
  apply str_ext
  rw [urlunparse_data s n (normSlash pa) q f hn,
    urlunparse_data s n pa q f hn, normSlash_idem]

theorem update_link_pass2 (ru uu : ParseResult) (rp : Option String)
    (link : JDict) (href : String) (s1v : String)
    (hh : getd link "href" = some (Json.str href))
    (hrp : rp = none ∨ rp = some "")
    (hup : uu.path = "" ∨ uu.path = "/")
    (hnet : validNetloc ru.netloc = true)
    (hs1 : validScheme s1v = true)
    (hhost : caseFold (extract_hostname ru.netloc) ≠
      caseFold (extract_hostname uu.netloc))
    (h1 : update_link ru uu rp link =
      if urlunparseModel ⟨s1v, ru.netloc, (urlparseModel href).path,
          (urlparseModel href).query, (urlparseModel href).fragment⟩ == href
      then link
      else setd link "href" (Json.str (urlunparseModel ⟨s1v, ru.netloc,
          (urlparseModel href).path, (urlparseModel href).query,
          (urlparseModel href).fragment⟩))) :
    update_link ru uu rp (update_link ru uu rp link) =
      update_link ru uu rp link := by
  by_cases hbeq : (urlunparseModel ⟨s1v, ru.netloc, (urlparseModel href).path,
      (urlparseModel href).query, (urlparseModel href).fragment⟩ == href) = true
  · rw [if_pos hbeq] at h1
    rw [h1]
    exact h1
  · rw [if_neg hbeq] at h1
    rw [h1]
    have hh2 : getd (setd link "href" (Json.str (urlunparseModel ⟨s1v,
        ru.netloc, (urlparseModel href).path, (urlparseModel href).query,
        (urlparseModel href).fragment⟩))) "href"
        = some (Json.str (urlunparseModel ⟨s1v, ru.netloc,
          (urlparseModel href).path, (urlparseModel href).query,
          (urlparseModel href).fragment⟩)) :=
      getd_setd_same link "href" _
    have hrt : urlparseModel (urlunparseModel ⟨s1v, ru.netloc,
        (urlparseModel href).path, (urlparseModel href).query,
        (urlparseModel href).fragment⟩)
        = ⟨s1v, ru.netloc, normSlash (urlparseModel href).path,
          (urlparseModel href).query, (urlparseModel href).fragment⟩ :=
      urlparse_roundtrip s1v ru.netloc (urlparseModel href).path
        (urlparseModel href).query (urlparseModel href).fragment hs1 hnet
        (urlparseModel_path_no_q href) (urlparseModel_path_no_f href)
        (urlparseModel_query_no_f href)
    by_cases hm2 : (netlocs_match ru.netloc s1v ru.netloc ru.scheme) = true
    · have hm2' : (netlocs_match
          (urlparseModel (urlunparseModel ⟨s1v, ru.netloc,
            (urlparseModel href).path, (urlparseModel href).query,
            (urlparseModel href).fragment⟩)).netloc
          (urlparseModel (urlunparseModel ⟨s1v, ru.netloc,
            (urlparseModel href).path, (urlparseModel href).query,
            (urlparseModel href).fragment⟩)).scheme ru.netloc ru.scheme ||
        netlocs_match
          (urlparseModel (urlunparseModel ⟨s1v, ru.netloc,
            (urlparseModel href).path, (urlparseModel href).query,
            (urlparseModel href).fragment⟩)).netloc
          (urlparseModel (urlunparseModel ⟨s1v, ru.netloc,
            (urlparseModel href).path, (urlparseModel href).query,
            (urlparseModel href).fragment⟩)).scheme uu.netloc uu.scheme)
          = true := by
        rw [hrt]
        simp only []
        rw [hm2]
        rfl
      have hs1' : s1v = if netlocs_match
          (urlparseModel (urlunparseModel ⟨s1v, ru.netloc,
            (urlparseModel href).path, (urlparseModel href).query,
            (urlparseModel href).fragment⟩)).netloc
          (urlparseModel (urlunparseModel ⟨s1v, ru.netloc,
            (urlparseModel href).path, (urlparseModel href).query,
            (urlparseModel href).fragment⟩)).scheme uu.netloc uu.scheme
          then ru.scheme
          else (urlparseModel (urlunparseModel ⟨s1v, ru.netloc,
            (urlparseModel href).path, (urlparseModel href).query,
            (urlparseModel href).fragment⟩)).scheme := by
        rw [hrt]
        simp only []
        rw [netlocs_match_false_of_host ru.netloc s1v uu.netloc uu.scheme hhost,
          if_neg Bool.false_ne_true]
      have h2 := update_link_str ru uu rp
        (setd link "href" (Json.str (urlunparseModel ⟨s1v, ru.netloc,
          (urlparseModel href).path, (urlparseModel href).query,
          (urlparseModel href).fragment⟩)))
        (urlunparseModel ⟨s1v, ru.netloc, (urlparseModel href).path,
          (urlparseModel href).query, (urlparseModel href).fragment⟩) s1v
        hh2 hrp hup hm2' hs1'
      rw [h2, hrt]
      simp only []
      rw [urlunparse_normSlash s1v ru.netloc (urlparseModel href).path
        (urlparseModel href).query (urlparseModel href).fragment
        (validNetloc_parts ru.netloc hnet).1]
      rw [beq_self_eq_true, if_pos rfl]
    · have hmf : (netlocs_match
          (urlparseModel (urlunparseModel ⟨s1v, ru.netloc,
            (urlparseModel href).path, (urlparseModel href).query,
            (urlparseModel href).fragment⟩)).netloc
          (urlparseModel (urlunparseModel ⟨s1v, ru.netloc,
            (urlparseModel href).path, (urlparseModel href).query,
            (urlparseModel href).fragment⟩)).scheme ru.netloc ru.scheme ||
        netlocs_match
          (urlparseModel (urlunparseModel ⟨s1v, ru.netloc,
            (urlparseModel href).path, (urlparseModel href).query,
            (urlparseModel href).fragment⟩)).netloc
          (urlparseModel (urlunparseModel ⟨s1v, ru.netloc,
            (urlparseModel href).path, (urlparseModel href).query,
            (urlparseModel href).fragment⟩)).scheme uu.netloc uu.scheme)
          = false := by
        rw [hrt]
        simp only []
        rw [Bool.eq_false_iff.mpr hm2,
          netlocs_match_false_of_host ru.netloc s1v uu.netloc uu.scheme hhost]
        rfl
      exact update_link_skip ru uu rp _ _ hh2 hmf

theorem update_link_idem (ru uu : ParseResult) (rp : Option String)
    (hrp : rp = none ∨ rp = some "")
    (hup : uu.path = "" ∨ uu.path = "/")
    (hnet : validNetloc ru.netloc = true)
    (hsch : validScheme ru.scheme = true)
    (hhost : caseFold (extract_hostname ru.netloc) ≠
      caseFold (extract_hostname uu.netloc))
    (link : JDict) :
    update_link ru uu rp (update_link ru uu rp link) =
      update_link ru uu rp link := by
  by_cases hh : ∃ s, getd link "href" = some (Json.str s)
  case neg =>
    push_neg at hh
    have h1 := update_link_nohref ru uu rp link hh
    rw [h1]
    exact h1
  case pos =>
  obtain ⟨href, hh⟩ := hh
  by_cases hm : (netlocs_match (urlparseModel href).netloc
      (urlparseModel href).scheme ru.netloc ru.scheme ||
    netlocs_match (urlparseModel href).netloc (urlparseModel href).scheme
      uu.netloc uu.scheme) = true
  case neg =>
    have h1 := update_link_skip ru uu rp link href hh (Bool.eq_false_iff.mpr hm)
    rw [h1]
    exact h1
  case pos =>
  by_cases hlmu : (netlocs_match (urlparseModel href).netloc
      (urlparseModel href).scheme uu.netloc uu.scheme) = true
  · have h1 := update_link_str ru uu rp link href ru.scheme hh hrp hup hm
      (by rw [if_pos hlmu])
    exact update_link_pass2 ru uu rp link href ru.scheme hh hrp hup hnet hsch
      hhost h1
  · have h1 := update_link_str ru uu rp link href (urlparseModel href).scheme
      hh hrp hup hm
      (by rw [Bool.eq_false_iff.mpr hlmu, if_neg Bool.false_ne_true])
    exact update_link_pass2 ru uu rp link href (urlparseModel href).scheme hh
      hrp hup hnet (validScheme_urlparse href) hhost h1

/-- C8 (amended): holding the client-visible request URL, the upstream URL
and the configured root path constant, the link rewrite is idempotent
provided no root path is configured (`none` or the empty string), the
upstream URL has no path (empty or `/`), and the client-visible and
upstream hostnames differ (the deployment shape the middleware is built
for): `rewriteDoc cfg (rewriteDoc cfg doc) = rewriteDoc cfg doc`. -/
theorem rewriteDoc_idempotent_amended (ru uu : ParseResult) (rp : Option String)
    (hrp : rp = none ∨ rp = some "")
    (hup : uu.path = "" ∨ uu.path = "/")
    (hnet : validNetloc ru.netloc = true)
    (hsch : validScheme ru.scheme = true)
    (hhost : caseFold (extract_hostname ru.netloc) ≠
      caseFold (extract_hostname uu.netloc))
    (doc : Json) :
    rewriteDoc ru uu rp (rewriteDoc ru uu rp doc) = rewriteDoc ru uu rp doc := by
  have hf : ∀ l, update_link ru uu rp (update_link ru uu rp l) =
      update_link ru uu rp l :=
    update_link_idem ru uu rp hrp hup hnet hsch hhost
  cases doc with
  | null => rfl
  | bool b => rfl
  | num n => rfl
  | str s => rfl
  | arr a => rfl
  | obj d =>
    simp only [rewriteDoc]
    congr 1
    simp only [updateItemsLinks, updateLinksIn]
    rw [updateKeyArr_comm "links" "collections"
        (onLinkObj (update_link ru uu rp))
        (onLinkObj (updateLinksIn (update_link ru uu rp))) (by decide)
        (updateKeyArr "features"
          (onLinkObj (updateLinksIn (update_link ru uu rp)))
          (updateKeyArr "links" (onLinkObj (update_link ru uu rp)) d)),
      updateKeyArr_comm "links" "features" (onLinkObj (update_link ru uu rp))
        (onLinkObj (updateLinksIn (update_link ru uu rp))) (by decide)
        (updateKeyArr "links" (onLinkObj (update_link ru uu rp)) d),
      updateKeyArr_idem "links" (onLinkObj (update_link ru uu rp))
        (onLinkObj_idem (update_link ru uu rp) hf) d,
      updateKeyArr_comm "features" "collections"
        (onLinkObj (updateLinksIn (update_link ru uu rp)))
        (onLinkObj (updateLinksIn (update_link ru uu rp))) (by decide)
        (updateKeyArr "features"
          (onLinkObj (updateLinksIn (update_link ru uu rp)))
          (updateKeyArr "links" (onLinkObj (update_link ru uu rp)) d)),
      updateKeyArr_idem "features"
        (onLinkObj (updateLinksIn (update_link ru uu rp)))
        (onLinkObj_idem (updateLinksIn (update_link ru uu rp))
          (updateLinksIn_idem (update_link ru uu rp) hf))
        (updateKeyArr "links" (onLinkObj (update_link ru uu rp)) d),
      updateKeyArr_idem "collections"
        (onLinkObj (updateLinksIn (update_link ru uu rp)))
        (onLinkObj_idem (updateLinksIn (update_link ru uu rp))
          (updateLinksIn_idem (update_link ru uu rp) hf))
        (updateKeyArr "features"
          (onLinkObj (updateLinksIn (update_link ru uu rp)))
          (updateKeyArr "links" (onLinkObj (update_link ru uu rp)) d))]

/-- Witness for the amended C8 theorem at a concrete configuration and
document: hypotheses checked by evaluation; the conclusion is the theorem
applied there. -/
theorem rewriteDoc_idempotent_amended_witness :
    (validNetloc "proxy.example" = true ∧
      validScheme "https" = true ∧
      caseFold (extract_hostname "proxy.example") ≠
        caseFold (extract_hostname "upstream.local")) ∧
    rewriteDoc ⟨"https", "proxy.example", "", "", ""⟩
        ⟨"http", "upstream.local", "/", "", ""⟩ none
        (rewriteDoc ⟨"https", "proxy.example", "", "", ""⟩
          ⟨"http", "upstream.local", "/", "", ""⟩ none
          (Json.obj [("links", Json.arr [Json.obj
            [("href", Json.str "http://upstream.local/collections/x")]])]))
      = rewriteDoc ⟨"https", "proxy.example", "", "", ""⟩
        ⟨"http", "upstream.local", "/", "", ""⟩ none
        (Json.obj [("links", Json.arr [Json.obj
          [("href", Json.str "http://upstream.local/collections/x")]])]) :=
  ⟨⟨by decide, by decide, by decide⟩,
    rewriteDoc_idempotent_amended ⟨"https", "proxy.example", "", "", ""⟩
      ⟨"http", "upstream.local", "/", "", ""⟩ none (Or.inl rfl) (Or.inr rfl)
      (by decide) (by decide) (by decide) _⟩

end StacAuthProxy
